import Mathlib

/-!
Verification of the AgenticPipelineCreator execution engine.

This file gives a shallow embedding, in Lean, of the parts of the engine that
carry the system's invariants:

* the conditional-router tool (`src/tools/built_in_tools.py`,
  `ConditionalRouterTool.execute`), both in plain conditional mode and in
  stateful loop mode;
* the orchestrator's state handling (`src/orchestrator.py`, `Orchestrator.run`):
  merging of plain outputs, the `_update_state` patch directive, the
  `_clear_agent_outputs` directive and the `_next_step_id` routing override;
* the orchestrator's input resolution (`Orchestrator._resolve_inputs` and
  `Orchestrator._get_value_from_path`).

Values are modelled by the JSON-like type `Value` below, covering `None`,
integers, strings, lists and string-keyed dictionaries — the value universe the
pipeline configuration format (JSON) and the engine's own state actually use.
Python floats and booleans are outside the embedding.  Python dictionaries are
modelled as association lists in insertion order, matching Python's ordered
dictionaries; a raised Python exception is modelled as `Except.error` with the
message text.
-/

namespace APC

/-- JSON-like runtime values: Python `None`, `int`, `str`, `list` and
string-keyed `dict`, the value universe used by the pipeline engine. -/
inductive Value where
  | vNone : Value
  | vInt (n : Int) : Value
  | vStr (s : String) : Value
  | vList (xs : List Value) : Value
  | vDict (entries : List (String × Value)) : Value

namespace Value

mutual

/-- Decidable structural equality on `Value`, written by hand because automatic
deriving does not cover this nested inductive. -/
def decEq : (a b : Value) → Decidable (a = b)
  | vNone, vNone => isTrue rfl
  | vNone, vInt _ => isFalse fun h => nomatch h
  | vNone, vStr _ => isFalse fun h => nomatch h
  | vNone, vList _ => isFalse fun h => nomatch h
  | vNone, vDict _ => isFalse fun h => nomatch h
  | vInt _, vNone => isFalse fun h => nomatch h
  | vInt m, vInt n =>
      if h : m = n then isTrue (by rw [h]) else
        isFalse (by intro hh; apply h; injection hh)
  | vInt _, vStr _ => isFalse fun h => nomatch h
  | vInt _, vList _ => isFalse fun h => nomatch h
  | vInt _, vDict _ => isFalse fun h => nomatch h
  | vStr _, vNone => isFalse fun h => nomatch h
  | vStr _, vInt _ => isFalse fun h => nomatch h
  | vStr s, vStr t =>
      if h : s = t then isTrue (by rw [h]) else
        isFalse (by intro hh; apply h; injection hh)
  | vStr _, vList _ => isFalse fun h => nomatch h
  | vStr _, vDict _ => isFalse fun h => nomatch h
  | vList _, vNone => isFalse fun h => nomatch h
  | vList _, vInt _ => isFalse fun h => nomatch h
  | vList _, vStr _ => isFalse fun h => nomatch h
  | vList xs, vList ys =>
      match decEqList xs ys with
      | isTrue h => isTrue (by rw [h])
      | isFalse h => isFalse (by intro hh; apply h; injection hh)
  | vList _, vDict _ => isFalse fun h => nomatch h
  | vDict _, vNone => isFalse fun h => nomatch h
  | vDict _, vInt _ => isFalse fun h => nomatch h
  | vDict _, vStr _ => isFalse fun h => nomatch h
  | vDict _, vList _ => isFalse fun h => nomatch h
  | vDict xs, vDict ys =>
      match decEqEntries xs ys with
      | isTrue h => isTrue (by rw [h])
      | isFalse h => isFalse (by intro hh; apply h; injection hh)

def decEqList : (xs ys : List Value) → Decidable (xs = ys)
  | [], [] => isTrue rfl
  | [], _ :: _ => isFalse fun h => nomatch h
  | _ :: _, [] => isFalse fun h => nomatch h
  | x :: xs, y :: ys =>
      match decEq x y, decEqList xs ys with
      | isTrue h1, isTrue h2 => isTrue (by rw [h1, h2])
      | isFalse h1, _ =>
          isFalse (by intro hh; simp only [List.cons.injEq] at hh; exact h1 hh.1)
      | _, isFalse h2 =>
          isFalse (by intro hh; simp only [List.cons.injEq] at hh; exact h2 hh.2)

def decEqEntries : (xs ys : List (String × Value)) → Decidable (xs = ys)
  | [], [] => isTrue rfl
  | [], _ :: _ => isFalse fun h => nomatch h
  | _ :: _, [] => isFalse fun h => nomatch h
  | (k, v) :: xs, (k2, w) :: ys =>
      if hk : k = k2 then
        match decEq v w, decEqEntries xs ys with
        | isTrue h1, isTrue h2 => isTrue (by rw [hk, h1, h2])
        | isFalse h1, _ =>
            isFalse (by
              intro hh; simp only [List.cons.injEq, Prod.mk.injEq] at hh; exact h1 hh.1.2)
        | _, isFalse h2 =>
            isFalse (by
              intro hh; simp only [List.cons.injEq, Prod.mk.injEq] at hh; exact h2 hh.2)
      else
        isFalse (by
          intro hh; simp only [List.cons.injEq, Prod.mk.injEq] at hh; exact hk hh.1.1)

end

instance : DecidableEq Value := decEq

/-- First entry with the given key in an association list (Python dict lookup,
reading insertion order). -/
def lookupFirst : List (String × Value) → String → Option Value
  | [], _ => none
  | (k2, w) :: rest, k => if k2 = k then some w else lookupFirst rest k

/-- Every key of `d` also occurs as a key of `e`. -/
def keysSubset (d e : List (String × Value)) : Bool :=
  d.all fun kv => e.any fun kw => kw.1 == kv.1

mutual

/-- Python `==` on the embedded value universe: `None == None`, numeric and
string equality, elementwise list equality, and order-insensitive dictionary
equality (same keys, equal values per key); any cross-type comparison within
this universe is `False`. -/
def pyEq : Value → Value → Bool
  | vNone, vNone => true
  | vInt m, vInt n => m == n
  | vStr s, vStr t => s == t
  | vList xs, vList ys => pyEqList xs ys
  | vDict xs, vDict ys => pyEqEntries xs ys && keysSubset ys xs
  | _, _ => false

def pyEqList : List Value → List Value → Bool
  | [], [] => true
  | x :: xs, y :: ys => pyEq x y && pyEqList xs ys
  | _, _ => false

def pyEqEntries : List (String × Value) → List (String × Value) → Bool
  | [], _ => true
  | (k, v) :: rest, e =>
      (match lookupFirst e k with
       | some w => pyEq v w
       | none => false) && pyEqEntries rest e

end

/-- Python truthiness on the embedded value universe: `None`, `0`, `""`, `[]`
and even the empty dict are falsy, everything else is truthy. -/
def truthy : Value → Bool
  | vNone => false
  | vInt n => n != 0
  | vStr s => s != ""
  | vList xs => !xs.isEmpty
  | vDict entries => !entries.isEmpty

/-- Python `is None` test. -/
def isNone : Value → Bool
  | vNone => true
  | _ => false

end Value

/-- Decidable equality for `Except`, so that concrete runs of the embedded
functions can be checked by `decide`. -/
instance {ε α : Type} [DecidableEq ε] [DecidableEq α] : DecidableEq (Except ε α) :=
  fun a b =>
    match a, b with
    | .ok x, .ok y =>
        if h : x = y then isTrue (by rw [h]) else
          isFalse (by intro hh; apply h; injection hh)
    | .error x, .error y =>
        if h : x = y then isTrue (by rw [h]) else
          isFalse (by intro hh; apply h; injection hh)
    | .ok _, .error _ => isFalse fun h => nomatch h
    | .error _, .ok _ => isFalse fun h => nomatch h

/-- A Python dictionary with string keys in insertion order: the shape of the
pipeline state, of tool inputs, of tool outputs and of `_update_state`
patches. -/
abbrev Dict := List (String × Value)

namespace Dict

/-- Python `d[k]` / `k in d` lookup, as an option. -/
def get? : Dict → String → Option Value
  | [], _ => none
  | (k2, w) :: rest, k => if k2 = k then some w else get? rest k

/-- Python `d.get(k, dflt)`. -/
def getD (d : Dict) (k : String) (dflt : Value) : Value :=
  (d.get? k).getD dflt

/-- Python `k in d`. -/
def hasKey (d : Dict) (k : String) : Bool :=
  (d.get? k).isSome

/-- Python `d[k] = v`: replace the value in place if the key exists, else
append the new entry, preserving insertion order. -/
def set : Dict → String → Value → Dict
  | [], k, v => [(k, v)]
  | (k2, w) :: rest, k, v => if k2 = k then (k2, v) :: rest else (k2, w) :: set rest k v

/-- Python `del d[k]` (removing every entry with the key). -/
def eraseKey : Dict → String → Dict
  | [], _ => []
  | (k2, w) :: rest, k => if k2 = k then eraseKey rest k else (k2, w) :: eraseKey rest k

end Dict

/-- Python `s.startswith(pre)`. -/
def strStartsWith (s pre : String) : Bool :=
  pre.data.isPrefixOf s.data

/-- Python `'.' in k` for a single character. -/
def hasDot (k : String) : Bool :=
  k.data.contains '.'

/-- Python `s.split('.')` at character-list level: splitting on every dot and
keeping empty pieces, so the result is always non-empty. -/
def splitDotChars : List Char → List (List Char)
  | [] => [[]]
  | c :: cs =>
      if c = '.' then [] :: splitDotChars cs
      else
        match splitDotChars cs with
        | [] => [[c]]
        | p :: ps => (c :: p) :: ps

/-- Python `s.split('.')`. -/
def splitDot (s : String) : List String :=
  (splitDotChars s.data).map fun l => String.mk l

/-- Python `".".join(pieces)` at character-list level. -/
def joinDotChars : List (List Char) → List Char
  | [] => []
  | [p] => p
  | p :: ps => p ++ '.' :: joinDotChars ps

/-- Python `".".join(pieces)`. -/
def joinDot (pieces : List String) : String :=
  String.mk (joinDotChars (pieces.map String.data))

/-- Python substring test `sub in s`. -/
def strContainsSub (s sub : String) : Bool :=
  (List.range (s.data.length + 1)).any fun i => sub.data.isPrefixOf (s.data.drop i)

/-- Decimal digit run to a number, `none` unless the run is non-empty and all
digits. -/
def digitsToNat (ds : List Char) : Option Nat :=
  if ds ≠ [] && ds.all Char.isDigit then
    some (ds.foldl (fun n c => n * 10 + (c.toNat - 48)) 0)
  else none

/-- Python `int(s)` on a string: optional surrounding whitespace, an optional
sign and a non-empty digit run; `none` models the `ValueError` raised
otherwise.  (Digit-group underscores are not modelled.) -/
def pyIntOfString (s : String) : Option Int :=
  let core := ((s.data.dropWhile Char.isWhitespace).reverse.dropWhile Char.isWhitespace).reverse
  match core with
  | '-' :: ds => (digitsToNat ds).map fun n => -(n : Int)
  | '+' :: ds => (digitsToNat ds).map fun n => (n : Int)
  | ds => (digitsToNat ds).map fun n => (n : Int)

/-- Python `int(v)` on an embedded value: integers pass through, strings are
parsed, and anything else is an error (`none`). -/
def pyToInt : Value → Option Int
  | .vInt n => some n
  | .vStr s => pyIntOfString s
  | _ => none

/-! ## The conditional router tool

Embedding of `ConditionalRouterTool.execute` from `src/tools/built_in_tools.py`
(lines 171-331).  Configuration values read with `dict.get` keep their
"possibly absent" nature: absent keys are `Value.vNone` (for values used as
data) or `Option.none` (for `counter_name`, which is only ever a string or
absent in pipeline configurations). -/

/-- The `loop_config` block of a router's tool configuration (source lines
210-214). -/
structure LoopConfig where
  total_iterations_from : Value
  loop_body_start_id : Value
  counter_name : Option String
  accumulators : List (String × String)
  loop_body_agents : List String

/-- One condition group of a router's tool configuration (source lines
306-311).  `varName` embeds the group's `variable` field, a Lean keyword. -/
structure CondGroup where
  varName : Value
  operator : Value
  value : Value
  then_execute_step : Value

/-- A router's tool configuration: at most one `loop_config`, a list of
condition groups and an optional `else_execute_step`. -/
structure RouterConfig where
  loop_config : Option LoopConfig
  condition_groups : List CondGroup
  else_execute_step : Value

/-- The namespacing expression `f"{agent_id}.{name}" if agent_id and name else
name` used for both the loop counter key and the accumulator keys (source
lines 217 and 254). -/
def namespacedName (agent_id : Option String) (name : String) : String :=
  match agent_id with
  | some a => if a ≠ "" && name ≠ "" then a ++ "." ++ name else name
  | none => name

/-- The namespaced counter key; `none` embeds a missing `counter_name`
(source line 217). -/
def namespacedCounterKey (agent_id : Option String) (counter_name : Option String) :
    Option String :=
  match counter_name with
  | none => none
  | some cn => some (namespacedName agent_id cn)

/-- Resolution of `total_iterations_from` (source lines 226-240): a literal
integer is used as is; a string names an input, which must be present,
non-`None` and parse as an integer; anything else raises. -/
def resolveTotalIterations (total_iterations_from : Value) (inputs : Dict) :
    Except String Int :=
  match total_iterations_from with
  | .vInt t => .ok t
  | .vStr key =>
      if key = "" then
        .error "ConditionalRouterTool: total_iterations_from key name cannot be empty if it is a string."
      else
        match inputs.getD key .vNone with
        | .vNone => .error ("Looping error: Total iterations key '" ++ key ++ "' not found in inputs.")
        | v =>
            match pyToInt v with
            | some t => .ok t
            | none => .error ("Looping error: Input '" ++ key ++ "' must be an integer.")
  | _ => .error "Looping error: total_iterations_from in loop_config must be an integer or a string key name."

/-- The data-aggregation loop (source lines 247-266): for each accumulator, if
its feeding input is present and neither `None` nor `""`, append it to the
accumulator's current list (read from its namespaced state key, defaulting to
`[]`, and re-initialized to `[]` if the state value is not a list); an empty
namespaced key raises. -/
def aggregateAccumulators (agent_id : Option String) (accumulators : List (String × String))
    (inputs pipeline_state updated_state : Dict) : Except String Dict :=
  match accumulators with
  | [] => .ok updated_state
  | (output_key, input_source_key) :: rest =>
      match inputs.get? input_source_key with
      | none =>
          -- source key absent: a warning is printed and accumulation skipped
          aggregateAccumulators agent_id rest inputs pipeline_state updated_state
      | some value_to_accumulate =>
          if !value_to_accumulate.isNone && !Value.pyEq value_to_accumulate (.vStr "") then
            let namespaced_acc_key := namespacedName agent_id output_key
            if namespaced_acc_key = "" then
              .error "ConditionalRouterTool: Accumulator output key cannot be empty."
            else
              let current_list :=
                match pipeline_state.getD namespaced_acc_key (.vList []) with
                | .vList l => l
                | _ => []
              aggregateAccumulators agent_id rest inputs pipeline_state
                (updated_state.set output_key (.vList (current_list ++ [value_to_accumulate])))
          else
            aggregateAccumulators agent_id rest inputs pipeline_state updated_state

/-- The termination branch's output assembly (source lines 288-299): each
accumulator's final value is the candidate list from this call's aggregation
when one was produced, else the value already in state (defaulting to `[]`);
an empty namespaced key is skipped. -/
def terminationOutputs (agent_id : Option String) (accumulators : List (String × String))
    (updated_state pipeline_state final_output : Dict) : Dict :=
  match accumulators with
  | [] => final_output
  | (acc_output_key, _) :: rest =>
      match updated_state.get? acc_output_key with
      | some v =>
          terminationOutputs agent_id rest updated_state pipeline_state
            (final_output.set acc_output_key v)
      | none =>
          let namespaced_acc_key := namespacedName agent_id acc_output_key
          if namespaced_acc_key = "" then
            terminationOutputs agent_id rest updated_state pipeline_state final_output
          else
            terminationOutputs agent_id rest updated_state pipeline_state
              (final_output.set acc_output_key (pipeline_state.getD namespaced_acc_key (.vList [])))

/-- Subject guard for `contains`/`not_contains`:
`isinstance(actual_value, (str, list, dict))` (source lines 320-321). -/
def isContainsSubject : Value → Bool
  | .vStr _ => true
  | .vList _ => true
  | .vDict _ => true
  | _ => false

/-- Subject guard for `gt`/`lt`: `isinstance(actual_value, (int, float))`
(source lines 322-323); floats are outside the embedded universe. -/
def isNumericSubject : Value → Bool
  | .vInt _ => true
  | _ => false

/-- Python membership `value in container`: substring test for strings (raising
when the needle is not a string), elementwise `==` for lists, key membership
for dicts (raising for unhashable needles). -/
def pyMembership (value container : Value) : Except String Bool :=
  match container with
  | .vStr s =>
      match value with
      | .vStr sub => .ok (strContainsSub s sub)
      | _ => .error "TypeError: in string requires string as left operand"
  | .vList xs => .ok (xs.any fun x => Value.pyEq x value)
  | .vDict entries =>
      match value with
      | .vStr k => .ok (entries.any fun kv => kv.1 == k)
      | .vNone => .ok false
      | .vInt _ => .ok false
      | _ => .error "TypeError: unhashable type"
  | _ => .error "TypeError: argument is not iterable"

/-- Python `a > b` on the embedded universe: defined on two integers, raising
on any other combination. -/
def pyGt (a b : Value) : Except String Bool :=
  match a, b with
  | .vInt m, .vInt n => .ok (decide (m > n))
  | _, _ => .error "TypeError: order comparison not supported between operand types"

/-- Python `a < b` on the embedded universe: defined on two integers, raising
on any other combination. -/
def pyLt (a b : Value) : Except String Bool :=
  match a, b with
  | .vInt m, .vInt n => .ok (decide (m < n))
  | _, _ => .error "TypeError: order comparison not supported between operand types"

/-- The `if`/`elif` operator chain of the plain conditional mode (source lines
317-323), given the already-looked-up subject `actual_value`.  An operator
that is none of the six known ones leaves `match` as `False`. -/
def evalCondition (actual_value operator value : Value) : Except String Bool :=
  if Value.pyEq operator (.vStr "equals") then .ok (Value.pyEq actual_value value)
  else if Value.pyEq operator (.vStr "not_equals") then .ok (!Value.pyEq actual_value value)
  else if Value.pyEq operator (.vStr "contains") then
    if isContainsSubject actual_value then pyMembership value actual_value else .ok false
  else if Value.pyEq operator (.vStr "not_contains") then
    if isContainsSubject actual_value then (pyMembership value actual_value).map (fun b => !b)
    else .ok false
  else if Value.pyEq operator (.vStr "gt") then
    if isNumericSubject actual_value then pyGt actual_value value else .ok false
  else if Value.pyEq operator (.vStr "lt") then
    if isNumericSubject actual_value then pyLt actual_value value else .ok false
  else .ok false

/-- The subject lookup `inputs.get(variable)` (source line 316).  Inputs are
string-keyed, so a non-string variable name never finds an entry. -/
def conditionSubject (inputs : Dict) (varName : Value) : Value :=
  match varName with
  | .vStr name => inputs.getD name .vNone
  | _ => .vNone

/-- The condition-group loop (source lines 306-326): groups whose `variable`,
`operator` or `then_execute_step` is falsy are skipped; the first group whose
condition evaluates to a match determines the result. -/
def routeConditionGroups (inputs : Dict) : List CondGroup → Except String (Option Value)
  | [] => .ok none
  | g :: rest =>
      if !(g.varName.truthy && g.operator.truthy && g.then_execute_step.truthy) then
        routeConditionGroups inputs rest
      else
        match evalCondition (conditionSubject inputs g.varName) g.operator g.value with
        | .error e => .error e
        | .ok true => .ok (some g.then_execute_step)
        | .ok false => routeConditionGroups inputs rest

/-- Embedding of `ConditionalRouterTool.execute` (source lines 171-331).  The
returned `Dict` is the tool's output map; a raised exception is an
`Except.error`. -/
def conditionalRouterExecute (inputs : Dict) (config : RouterConfig)
    (pipeline_state : Dict) (agent_id : Option String) : Except String Dict :=
  match config.loop_config with
  | some lc =>
      match namespacedCounterKey agent_id lc.counter_name with
      | none => .error "ConditionalRouterTool: counter_name must be defined in loop_config."
      | some nck =>
          if nck = "" then
            .error "ConditionalRouterTool: counter_name must be defined in loop_config."
          else
            let current_count := pipeline_state.getD nck (.vInt 0)
            match resolveTotalIterations lc.total_iterations_from inputs with
            | .error e => .error e
            | .ok total_iterations =>
                match aggregateAccumulators agent_id lc.accumulators inputs pipeline_state [] with
                | .error e => .error e
                | .ok updated_state =>
                    match current_count with
                    | .vInt c =>
                        if c < total_iterations then
                          let upd :=
                            match lc.counter_name with
                            | some cn =>
                                if cn ≠ "" then updated_state.set cn (.vInt (c + 1))
                                else updated_state
                            | none => updated_state
                          .ok [("_next_step_id", lc.loop_body_start_id),
                               ("_update_state", .vDict upd),
                               ("_clear_agent_outputs", .vList (lc.loop_body_agents.map Value.vStr))]
                        else
                          .ok (terminationOutputs agent_id lc.accumulators updated_state
                                pipeline_state [("_next_step_id", config.else_execute_step)])
                    | _ => .error "TypeError: order comparison not supported between loop counter and int"
  | none =>
      match routeConditionGroups inputs config.condition_groups with
      | .error e => .error e
      | .ok (some then_step) => .ok [("_next_step_id", then_step)]
      | .ok none =>
          if config.else_execute_step.truthy then .ok [("_next_step_id", config.else_execute_step)]
          else .ok []

/-! ## The orchestrator's state handling

Embedding of the per-step state management of `Orchestrator.run`
(`src/orchestrator.py`, lines 215-261). -/

/-- The state key `f"{current_agent_id}.{key}"` for a plain output (source
line 220). -/
def stateKeyOf (agentId k : String) : String :=
  agentId ++ "." ++ k

/-- Merging of plain outputs (source lines 217-221): every output entry except
the reserved keys `_next_step_id` and `_update_state` is written under the
current agent's namespace.  Note `_clear_agent_outputs` is not excluded. -/
def mergePlainOutputs (agentId : String) (outputs : List (String × Value)) (state : Dict) :
    Dict :=
  match outputs with
  | [] => state
  | (k, v) :: rest =>
      if k = "_next_step_id" || k = "_update_state" then mergePlainOutputs agentId rest state
      else mergePlainOutputs agentId rest (state.set (stateKeyOf agentId k) v)

/-- The key a patch entry is merged under (source lines 230-234): namespaced by
the emitting agent when it contains no dot, verbatim when it already does. -/
def patchKey (agentId k : String) : String :=
  if hasDot k then k else agentId ++ "." ++ k

/-- Merging of one `_update_state` patch, entry by entry (source lines
225-234). -/
def applyStatePatch (agentId : String) (patch : Dict) (state : Dict) : Dict :=
  match patch with
  | [] => state
  | (k, v) :: rest => applyStatePatch agentId rest (state.set (patchKey agentId k) v)

/-- The `_update_state` directive (source lines 224-234): applied only when the
key is present and its value is a dict. -/
def applyUpdateStateDirective (agentId : String) (outputs : Dict) (state : Dict) : Dict :=
  match outputs.get? "_update_state" with
  | some (.vDict patch) => applyStatePatch agentId patch state
  | _ => state

/-- The agent ids named by a `_clear_agent_outputs` directive (source line
240).  Ids are strings in every pipeline configuration; other element shapes
are outside the embedding. -/
def clearedAgentIds (outputs : Dict) : List String :=
  match outputs.get? "_clear_agent_outputs" with
  | some (.vList ids) => ids.filterMap fun v => match v with | .vStr s => some s | _ => none
  | _ => []

/-- Deletion of every state key with prefix `f"{agent_id}."` for a cleared
agent id (source lines 242-252); deleting from a Python dict preserves the
order of the remaining entries. -/
def purgeClearedKeys (ids : List String) : Dict → Dict
  | [] => []
  | (k, v) :: rest =>
      if ids.any (fun a => strStartsWith k (a ++ ".")) then purgeClearedKeys ids rest
      else (k, v) :: purgeClearedKeys ids rest

/-- The `_clear_agent_outputs` directive (source lines 239-252). -/
def applyClearOutputsDirective (outputs : Dict) (state : Dict) : Dict :=
  purgeClearedKeys (clearedAgentIds outputs) state

/-- Static routing `self.routing.get(current_agent_id, {}).get("next")`
(source line 261); routing values are objects of the form
`{"next": id-or-null}`. -/
def staticNextAgent (routing : Dict) (current : String) : Value :=
  match routing.get? current with
  | some (.vDict entry) => Dict.getD entry "next" .vNone
  | _ => .vNone

/-- Next-agent selection (source lines 257-261): a present and truthy
`_next_step_id` wins; otherwise the static routing table decides (with `None`,
i.e. a falsy value, terminating the run loop). -/
def nextAgentAfter (outputs : Dict) (routing : Dict) (current : String) : Value :=
  match outputs.get? "_next_step_id" with
  | some v => if v.truthy then v else staticNextAgent routing current
  | none => staticNextAgent routing current

/-! ## Input resolution

Embedding of `Orchestrator._get_value_from_path` (source lines 50-68) and
`Orchestrator._resolve_inputs` (source lines 70-118). -/

/-- The descent loop of `_get_value_from_path` over the already-split path
segments: descend while the current value is a dict containing the segment,
else return `None`. -/
def getValueFromPathSegs : Value → List String → Value
  | value, [] => value
  | .vDict entries, k :: ks =>
      match Dict.get? entries k with
      | some v => getValueFromPathSegs v ks
      | none => .vNone
  | _, _ :: _ => .vNone

/-- `_get_value_from_path(data, path)` (source lines 50-68): split the path on
dots and descend. -/
def getValueFromPath (data : Value) (path : String) : Value :=
  getValueFromPathSegs data (splitDot path)

/-- Resolution of one source-path string (source lines 93-105): paths starting
with `"pipeline.initial_input."` descend into the nested initial-input object
(read from state with default `{}`); every other path is a flat state lookup.
A missing key and a stored `None` both come back as `Value.vNone`, exactly as
in Python. -/
def resolveSourcePath (state : Dict) (source_path : String) : Value :=
  if strStartsWith source_path "pipeline.initial_input." then
    let initial_input_path := joinDot ((splitDot source_path).drop 2)
    let initial_input_data := state.getD "pipeline.initial_input" (.vDict [])
    getValueFromPath initial_input_data initial_input_path
  else
    state.getD source_path .vNone

/-- Processing of one entry of an agent's `inputs` block (source lines 83-117):
non-string configuration values are literals; strings are resolved as source
paths; a `None` result is fatal in test mode and otherwise solicits a value
from the operator (modelled by the oracle `promptUser`), which is written back
into state under the source path. -/
def resolveInputEntry (test_mode : Bool) (promptUser : String → String) (state : Dict)
    (local_name : String) (source_path_or_value : Value) : Except String (Value × Dict) :=
  match source_path_or_value with
  | .vStr source_path =>
      let value := resolveSourcePath state source_path
      if value.isNone then
        if test_mode then
          .error ("Input '" ++ local_name ++ "' (from '" ++ source_path ++ "') not found in state and test_mode is active. Pipeline cannot proceed without user input.")
        else
          let user_value := promptUser source_path
          .ok (.vStr user_value, state.set source_path (.vStr user_value))
      else
        .ok (value, state)
  | v => .ok (v, state)

/-- The full `_resolve_inputs` loop (source lines 82-118), threading the state
through because interactive substitution writes into it. -/
def resolveInputsList (test_mode : Bool) (promptUser : String → String)
    (inputs_config : Dict) (state resolved_inputs : Dict) : Except String (Dict × Dict) :=
  match inputs_config with
  | [] => .ok (resolved_inputs, state)
  | (local_name, src) :: rest =>
      match resolveInputEntry test_mode promptUser state local_name src with
      | .error e => .error e
      | .ok (v, state2) =>
          resolveInputsList test_mode promptUser rest state2 (resolved_inputs.set local_name v)

/-- The seeding of the initial pipeline state (source lines 146-150): a missing
`initial_input` is `None`, and an empty-string `initial_input` is normalized to
`None` so that resolution will prompt for it. -/
def normalizeInitialInput (initial_input : Option Value) : Value :=
  match initial_input with
  | none => .vNone
  | some v => if Value.pyEq v (.vStr "") then .vNone else v

/-- The initial pipeline state (source line 150). -/
def initialPipelineState (initial_input : Option Value) : Dict :=
  [("pipeline.initial_input", normalizeInitialInput initial_input)]

/-! ## A run of the loop controller

Between two invocations of a loop-mode router the orchestrator applies the
router's directives to the pipeline state: it merges plain outputs, applies the
`_update_state` patch and then the `_clear_agent_outputs` directive, in that
order (source lines 215-252).  `controllerState` iterates this interaction,
feeding the router the resolved inputs of each invocation from a sequence. -/

/-- One application of a dispatch result's directives to the state, in source
order: plain-output merge, then state patch, then clearing. -/
def applyRouterDirectives (agentId : String) (outputs : Dict) (state : Dict) : Dict :=
  applyClearOutputsDirective outputs
    (applyUpdateStateDirective agentId outputs (mergePlainOutputs agentId outputs state))

/-- One router invocation followed by the orchestrator's directive application.
An error leaves the state unchanged (the run would abort there). -/
def controllerStep (agentId : String) (config : RouterConfig) (inputs state : Dict) : Dict :=
  match conditionalRouterExecute inputs config state (some agentId) with
  | .ok outputs => applyRouterDirectives agentId outputs state
  | .error _ => state

/-- The pipeline state before the `k`-th router invocation (0-based) of a run
of the loop controller. -/
def controllerState (agentId : String) (config : RouterConfig) (inputSeq : Nat → Dict)
    (init : Dict) : Nat → Dict
  | 0 => init
  | k + 1 => controllerStep agentId config (inputSeq k) (controllerState agentId config inputSeq init k)

/-- The value the aggregation step of one router call appends for a feeding
input, if any: the input must be present and neither `None` nor `""`. -/
def contributedValue (inputs : Dict) (src : String) : Option Value :=
  match inputs.get? src with
  | none => none
  | some v => if !v.isNone && !Value.pyEq v (.vStr "") then some v else none

/-- The list an accumulator fed by input `src` holds after the first `k` router
invocations of a run. -/
def collectedValues (inputSeq : Nat → Dict) (src : String) : Nat → List Value
  | 0 => []
  | k + 1 =>
      collectedValues inputSeq src k ++
        (match contributedValue (inputSeq k) src with
         | some v => [v]
         | none => [])

/-- The list value currently held at an accumulator's namespaced state key:
the stored list when one is there, `[]` when the key is absent or its value is
not a list (the re-initialization case of source lines 258-261). -/
def stateListAt (st : Dict) (k : String) : List Value :=
  match st.getD k (.vList []) with
  | .vList l => l
  | _ => []

/-- The dictionary the aggregation loop produces when it does not raise, as a
pure function of its inputs (used to state properties of
`aggregateAccumulators`). -/
def aggregatePure (a : String) (accs : List (String × String)) (inputs st upd : Dict) :
    Dict :=
  match accs with
  | [] => upd
  | (out, src) :: rest =>
      match contributedValue inputs src with
      | some v =>
          aggregatePure a rest inputs st
            (upd.set out (.vList (stateListAt st (a ++ "." ++ out) ++ [v])))
      | none => aggregatePure a rest inputs st upd

/-- A router configuration in loop mode, assembled from its parts. -/
def mkLoopRouterConfig (total bodyStart : Value) (counter_name : Option String)
    (accumulators : List (String × String)) (loop_body_agents : List String)
    (elseStep : Value) : RouterConfig :=
  ⟨some ⟨total, bodyStart, counter_name, accumulators, loop_body_agents⟩, [], elseStep⟩

/-- The specification's description of initial-input resolution, for the
refinement comparison of claim C9: first read the flat key
`"pipeline.initial_input"` (`NotFound`, i.e. `None`, when absent), then descend
the remaining path segment by segment, where descent yields `NotFound` as soon
as a segment is absent or the current value is not a mapping. -/
def specInitialInputResolution (state : Dict) (p : String) : Value :=
  getValueFromPathSegs (state.getD "pipeline.initial_input" .vNone) (splitDot p)

/-! ## Helper lemmas: dictionaries -/

namespace Dict

theorem get?_set_self (d : Dict) (k : String) (v : Value) : (d.set k v).get? k = some v := by
  induction d with
  | nil => simp [set, get?]
  | cons kv rest ih =>
      obtain ⟨k2, w⟩ := kv
      by_cases h : k2 = k
      · simp [set, get?, h]
      · simp [set, get?, h, ih]

theorem get?_set_ne (d : Dict) (k key : String) (v : Value) (h : k ≠ key) :
    (d.set k v).get? key = d.get? key := by
  induction d with
  | nil => simp [set, get?, h]
  | cons kv rest ih =>
      obtain ⟨k2, w⟩ := kv
      by_cases h2 : k2 = k
      · subst h2
        simp [set, get?, h]
      · simp [set, get?, h2, ih]

theorem get?_eraseKey_self (d : Dict) (k : String) : (d.eraseKey k).get? k = none := by
  induction d with
  | nil => simp [eraseKey, get?]
  | cons kv rest ih =>
      obtain ⟨k2, w⟩ := kv
      by_cases h : k2 = k
      · simp [eraseKey, h, ih]
      · simp [eraseKey, get?, h, ih]

theorem get?_eraseKey_ne (d : Dict) (k key : String) (h : k ≠ key) :
    (d.eraseKey k).get? key = d.get? key := by
  induction d with
  | nil => simp [eraseKey, get?]
  | cons kv rest ih =>
      obtain ⟨k2, w⟩ := kv
      by_cases h2 : k2 = k
      · subst h2
        simp [eraseKey, get?, h, ih]
      · simp [eraseKey, get?, h2, ih]

end Dict

/-! ## Helper lemmas: strings, prefixes and dotted paths -/

theorem strStartsWith_append (pre p : String) : strStartsWith (pre ++ p) pre = true := by
  simp [strStartsWith, String.data_append, List.isPrefixOf_iff_prefix, List.prefix_append]

theorem data_append_dot (x y : String) :
    (x ++ "." ++ y).data = x.data ++ '.' :: y.data := by
  rw [String.data_append, String.data_append, List.append_assoc]
  rfl

theorem dotKey_inj (a x y : String) (h : a ++ "." ++ x = a ++ "." ++ y) : x = y := by
  apply String.ext
  have hd := congrArg String.data h
  rw [data_append_dot, data_append_dot] at hd
  have h2 := List.append_cancel_left hd
  injection h2

theorem prefixDot_eq (bs : List Char) : ∀ (xs ys : List Char), '.' ∉ xs → '.' ∉ ys →
    (bs ++ ['.']) <+: (xs ++ '.' :: ys) → bs = xs := by
  induction bs with
  | nil =>
      intro xs ys hx _ h
      cases xs with
      | nil => rfl
      | cons c xs2 =>
          rw [List.nil_append, List.cons_append, List.cons_prefix_cons] at h
          exact absurd (by rw [h.1]; exact List.mem_cons_self c xs2) hx
  | cons c bs2 ih =>
      intro xs ys hx hy h
      cases xs with
      | nil =>
          rw [List.nil_append, List.cons_append, List.cons_prefix_cons] at h
          exact absurd (h.2.subset (by simp)) hy
      | cons c2 xs2 =>
          rw [List.cons_append, List.cons_append, List.cons_prefix_cons] at h
          rw [h.1, ih xs2 ys (fun hm => hx (List.mem_cons_of_mem c2 hm)) hy h.2]

theorem not_strStartsWith_dotKey (x y b : String) (hx : '.' ∉ x.data) (hy : '.' ∉ y.data)
    (hb : b ≠ x) : strStartsWith (x ++ "." ++ y) (b ++ ".") = false := by
  rw [Bool.eq_false_iff]
  intro h
  rw [strStartsWith, List.isPrefixOf_iff_prefix, data_append_dot, String.data_append] at h
  have : b.data = x.data := prefixDot_eq b.data x.data y.data hx hy (by simpa using h)
  exact hb (String.ext this)

/-! ## Helper lemmas: the state patch directive (source lines 224-234) -/

theorem applyStatePatch_get?_not_mem (A : String) (patch : Dict) :
    ∀ (state : Dict) (key : String), (∀ kv ∈ patch, patchKey A kv.1 ≠ key) →
    (applyStatePatch A patch state).get? key = state.get? key := by
  induction patch with
  | nil => intro state key _; rfl
  | cons kv rest ih =>
      intro state key h
      obtain ⟨k, v⟩ := kv
      rw [applyStatePatch, ih _ _ fun kv2 hm => h kv2 (List.mem_cons_of_mem _ hm)]
      exact Dict.get?_set_ne _ _ _ _ (h (k, v) (List.mem_cons_self _ _))

theorem applyStatePatch_get?_mem (A : String) (patch : Dict) :
    ∀ (state : Dict) (k : String) (v : Value), (k, v) ∈ patch →
    (patch.map fun kv => patchKey A kv.1).Nodup →
    (applyStatePatch A patch state).get? (patchKey A k) = some v := by
  induction patch with
  | nil => intro state k v hm _; exact absurd hm (List.not_mem_nil _)
  | cons kv rest ih =>
      intro state k v hm hnd
      obtain ⟨k1, v1⟩ := kv
      rw [List.map_cons, List.nodup_cons] at hnd
      rw [applyStatePatch]
      rcases List.mem_cons.mp hm with heq | hm2
      · have hk : k = k1 := congrArg Prod.fst heq
        have hv : v = v1 := congrArg Prod.snd heq
        subst hk
        subst hv
        rw [applyStatePatch_get?_not_mem A rest _ _ (by
          intro kv2 hm3 heq2
          apply hnd.1
          rw [← heq2]
          exact List.mem_map_of_mem (fun kv => patchKey A kv.1) hm3)]
        exact Dict.get?_set_self _ _ _
      · exact ih _ k v hm2 hnd.2

/-! ## Helper lemmas: the clear-outputs directive (source lines 239-252) -/

theorem purgeClearedKeys_get?_cleared (ids : List String) (st : Dict) (key : String)
    (h : (ids.any fun a => strStartsWith key (a ++ ".")) = true) :
    (purgeClearedKeys ids st).get? key = none := by
  induction st with
  | nil => rfl
  | cons kv rest ih =>
      obtain ⟨k, v⟩ := kv
      by_cases hk : (ids.any fun a => strStartsWith k (a ++ ".")) = true
      · rw [purgeClearedKeys, if_pos hk]
        exact ih
      · have hne : k ≠ key := fun hkey => hk (hkey ▸ h)
        rw [purgeClearedKeys, if_neg hk, Dict.get?, if_neg hne]
        exact ih

theorem purgeClearedKeys_get?_kept (ids : List String) (st : Dict) (key : String)
    (h : (ids.any fun a => strStartsWith key (a ++ ".")) = false) :
    (purgeClearedKeys ids st).get? key = st.get? key := by
  induction st with
  | nil => rfl
  | cons kv rest ih =>
      obtain ⟨k, v⟩ := kv
      by_cases hk : (ids.any fun a => strStartsWith k (a ++ ".")) = true
      · have hne : k ≠ key := fun hkey => by rw [hkey, h] at hk; exact Bool.noConfusion hk
        rw [purgeClearedKeys, if_pos hk, ih, Dict.get?, if_neg hne]
      · rw [purgeClearedKeys, if_neg hk, Dict.get?, Dict.get?]
        by_cases hkey : k = key
        · rw [if_pos hkey, if_pos hkey]
        · rw [if_neg hkey, if_neg hkey]
          exact ih

theorem filterMap_vStr_map (ids : List String) :
    ((ids.map Value.vStr).filterMap fun v =>
      match v with | Value.vStr s => some s | _ => none) = ids := by
  induction ids with
  | nil => rfl
  | cons a rest ih =>
      rw [List.map_cons, List.filterMap_cons]
      exact congrArg (List.cons a) ih

theorem clearedAgentIds_of_strs (outputs : Dict) (ids : List String)
    (h : outputs.get? "_clear_agent_outputs" = some (.vList (ids.map .vStr))) :
    clearedAgentIds outputs = ids := by
  rw [clearedAgentIds, h]
  exact filterMap_vStr_map ids

/-! ## Helper lemmas: splitting and joining dotted paths -/

theorem splitDotChars_ne_nil (cs : List Char) : ∃ q qs, splitDotChars cs = q :: qs := by
  induction cs with
  | nil => exact ⟨[], [], rfl⟩
  | cons c rest ih =>
      obtain ⟨q, qs, hq⟩ := ih
      by_cases hc : c = '.'
      · exact ⟨[], splitDotChars rest, by rw [splitDotChars, if_pos hc]⟩
      · exact ⟨c :: q, qs, by rw [splitDotChars, if_neg hc, hq]⟩

theorem dot_not_mem_splitDotChars (cs : List Char) :
    ∀ p ∈ splitDotChars cs, '.' ∉ p := by
  induction cs with
  | nil =>
      intro p hp
      rw [splitDotChars, List.mem_singleton] at hp
      simp [hp]
  | cons c rest ih =>
      intro p hp
      by_cases hc : c = '.'
      · rw [splitDotChars, if_pos hc, List.mem_cons] at hp
        rcases hp with rfl | hp
        · simp
        · exact ih p hp
      · obtain ⟨q, qs, hq⟩ := splitDotChars_ne_nil rest
        rw [splitDotChars, if_neg hc, hq, List.mem_cons] at hp
        rcases hp with rfl | hp
        · intro hmem
          rcases List.mem_cons.mp hmem with heq | hmem2
          · exact hc heq.symm
          · exact ih q (hq ▸ List.mem_cons_self q qs) hmem2
        · exact ih p (hq ▸ List.mem_cons_of_mem q hp)

theorem splitDotChars_dotfree (cs : List Char) (h : '.' ∉ cs) : splitDotChars cs = [cs] := by
  induction cs with
  | nil => rfl
  | cons c rest ih =>
      have hc : c ≠ '.' := fun hh => h (hh ▸ List.mem_cons_self c rest)
      rw [splitDotChars, if_neg hc, ih fun hh => h (List.mem_cons_of_mem c hh)]

theorem splitDotChars_append_dot (xs : List Char) (h : '.' ∉ xs) (ys : List Char) :
    splitDotChars (xs ++ '.' :: ys) = xs :: splitDotChars ys := by
  induction xs with
  | nil => rw [List.nil_append, splitDotChars, if_pos rfl]
  | cons c rest ih =>
      have hc : c ≠ '.' := fun hh => h (hh ▸ List.mem_cons_self c rest)
      rw [List.cons_append, splitDotChars, if_neg hc,
        ih fun hh => h (List.mem_cons_of_mem c hh)]

theorem splitDotChars_joinDotChars (ps : List (List Char)) (hne : ps ≠ [])
    (hdf : ∀ p ∈ ps, '.' ∉ p) : splitDotChars (joinDotChars ps) = ps := by
  induction ps with
  | nil => exact absurd rfl hne
  | cons p rest ih =>
      cases rest with
      | nil =>
          rw [joinDotChars]
          exact splitDotChars_dotfree p (hdf p (List.mem_singleton_self p))
      | cons q qs =>
          have hrest := ih (fun h => nomatch h) fun r hr => hdf r (List.mem_cons_of_mem p hr)
          have hjoin : joinDotChars (p :: q :: qs) = p ++ '.' :: joinDotChars (q :: qs) := rfl
          rw [hjoin, splitDotChars_append_dot p (hdf p (List.mem_cons_self _ _)), hrest]

theorem data_mk_id (l : List Char) : (String.mk l).data = l := rfl

theorem splitDot_joinDot_splitDot (p : String) :
    splitDot (joinDot (splitDot p)) = splitDot p := by
  simp only [splitDot, joinDot, data_mk_id, List.map_map]
  have hmaps : List.map (String.data ∘ String.mk) (splitDotChars p.data) =
      splitDotChars p.data := List.map_id _
  rw [hmaps]
  obtain ⟨q, qs, hq⟩ := splitDotChars_ne_nil p.data
  rw [splitDotChars_joinDotChars (splitDotChars p.data)
    (by rw [hq]; exact List.cons_ne_nil q qs) (dot_not_mem_splitDotChars p.data)]

theorem splitDot_initialInputPrefix (p : String) :
    splitDot ("pipeline.initial_input." ++ p) =
      "pipeline" :: "initial_input" :: splitDot p := by
  have h1 : ("pipeline.initial_input." : String).data ++ p.data =
      "pipeline".data ++ '.' :: ("initial_input".data ++ '.' :: p.data) := rfl
  rw [splitDot, String.data_append, h1,
    splitDotChars_append_dot "pipeline".data (by decide),
    splitDotChars_append_dot "initial_input".data (by decide)]
  rfl

/-! ## Claim C9 -/

/-- Claim C9: for every state and dotted path `p`, resolving the source path
`"pipeline.initial_input." ++ p` gives exactly what the specification
describes: first read the flat key `"pipeline.initial_input"`, then descend `p`
segment by segment, failing (with `None`) as soon as a segment is absent or the
current value is not a mapping. -/
theorem claim_C9_initial_input_resolution (state : Dict) (p : String) :
    resolveSourcePath state ("pipeline.initial_input." ++ p) =
      specInitialInputResolution state p := by
  rw [resolveSourcePath, if_pos (strStartsWith_append "pipeline.initial_input." p),
    splitDot_initialInputPrefix, List.drop_succ_cons, List.drop_succ_cons, List.drop_zero,
    getValueFromPath, splitDot_joinDot_splitDot, specInitialInputResolution]
  obtain ⟨q, qs, hq⟩ := splitDotChars_ne_nil p.data
  have hsegs : splitDot p = String.mk q :: qs.map String.mk := by
    rw [splitDot, hq, List.map_cons]
  rw [hsegs]
  cases hbase : state.get? "pipeline.initial_input" with
  | none => rw [Dict.getD, Dict.getD, hbase]; rfl
  | some v => rw [Dict.getD, Dict.getD, hbase]; rfl

/-! ## Claim C4 -/

/-- Claim C4: when a source-path input resolves to `NotFound` (Python `None`),
the strict posture (`test_mode = true`) aborts with the missing-input error, and
the interactive posture solicits a substitute from the operator and writes it
back into state under the source path; the posture is selected by the
`test_mode` flag, and in neither posture does resolution hand the agent an
undefined (`None`) value. -/
theorem claim_C4_missing_input (promptUser : String → String) (state : Dict)
    (local_name source_path : String)
    (h : resolveSourcePath state source_path = .vNone) :
    (∃ e, resolveInputEntry true promptUser state local_name (.vStr source_path) =
      .error e) ∧
    resolveInputEntry false promptUser state local_name (.vStr source_path) =
      .ok (.vStr (promptUser source_path),
           state.set source_path (.vStr (promptUser source_path))) ∧
    (∀ tm v st2,
      resolveInputEntry tm promptUser state local_name (.vStr source_path) = .ok (v, st2) →
      ∃ u, v = Value.vStr u) := by
  refine ⟨⟨"Input '" ++ local_name ++ "' (from '" ++ source_path ++ "') not found in state and test_mode is active. Pipeline cannot proceed without user input.", ?_⟩, ?_, ?_⟩
  · simp [resolveInputEntry, h, Value.isNone]
  · simp [resolveInputEntry, h, Value.isNone]
  · intro tm v st2 hok
    cases tm with
    | true => simp [resolveInputEntry, h, Value.isNone] at hok
    | false =>
        simp [resolveInputEntry, h, Value.isNone] at hok
        exact ⟨promptUser source_path, hok.1.symm⟩

/-- Witness for claim C4 at a concrete state missing the key `"gen.out"`. -/
theorem claim_C4_missing_input_witness :
    (∃ e, resolveInputEntry true (fun _ => "filled") [("a.x", .vInt 1)] "text"
      (.vStr "gen.out") = .error e) ∧
    resolveInputEntry false (fun _ => "filled") [("a.x", .vInt 1)] "text"
      (.vStr "gen.out") =
      .ok (.vStr "filled", [("a.x", .vInt 1), ("gen.out", .vStr "filled")]) ∧
    (∀ tm v st2,
      resolveInputEntry tm (fun _ => "filled") [("a.x", .vInt 1)] "text"
        (.vStr "gen.out") = .ok (v, st2) → ∃ u, v = Value.vStr u) := by
  have h := claim_C4_missing_input (fun _ => "filled") [("a.x", .vInt 1)] "text" "gen.out"
    (by decide)
  exact ⟨h.1, h.2.1, h.2.2⟩

/-! ## Claim C10 -/

/-- Claim C10 (implicit): a flat source path bound to an explicit `None` in
state is treated exactly like an absent key by input resolution — the resolver
returns `NotFound` either way, the strict posture fails with the same error,
the interactive posture prompts and produces extensionally equal states — and
the initial input is itself stored as `None` both when omitted and when given
as the empty string. -/
theorem claim_C10_none_indistinguishable (promptUser : String → String) (state : Dict)
    (local_name source_path : String)
    (hflat : state.get? source_path = some .vNone)
    (hnotII : strStartsWith source_path "pipeline.initial_input." = false) :
    (resolveSourcePath state source_path = .vNone ∧
     resolveSourcePath (state.eraseKey source_path) source_path = .vNone) ∧
    (∃ e, resolveInputEntry true promptUser state local_name (.vStr source_path) =
            .error e ∧
          resolveInputEntry true promptUser (state.eraseKey source_path) local_name
            (.vStr source_path) = .error e) ∧
    (resolveInputEntry false promptUser state local_name (.vStr source_path) =
      .ok (.vStr (promptUser source_path),
           state.set source_path (.vStr (promptUser source_path))) ∧
     ∀ k, (state.set source_path (.vStr (promptUser source_path))).get? k =
       ((state.eraseKey source_path).set source_path (.vStr (promptUser source_path))).get? k) ∧
    (normalizeInitialInput none = .vNone ∧
     normalizeInitialInput (some (.vStr "")) = .vNone) := by
  have hres : resolveSourcePath state source_path = .vNone := by
    simp [resolveSourcePath, hnotII, Dict.getD, hflat]
  have hres2 : resolveSourcePath (state.eraseKey source_path) source_path = .vNone := by
    simp [resolveSourcePath, hnotII, Dict.getD, Dict.get?_eraseKey_self]
  refine ⟨⟨hres, hres2⟩,
    ⟨"Input '" ++ local_name ++ "' (from '" ++ source_path ++ "') not found in state and test_mode is active. Pipeline cannot proceed without user input.", ?_, ?_⟩,
    ⟨?_, ?_⟩, by decide, by decide⟩
  · simp [resolveInputEntry, hres, Value.isNone]
  · simp [resolveInputEntry, hres2, Value.isNone]
  · simp [resolveInputEntry, hres, Value.isNone]
  · intro k
    by_cases hk : source_path = k
    · subst hk
      rw [Dict.get?_set_self, Dict.get?_set_self]
    · rw [Dict.get?_set_ne _ _ _ _ hk, Dict.get?_set_ne _ _ _ _ hk,
        Dict.get?_eraseKey_ne _ _ _ hk]

/-- Witness for claim C10 at a concrete state binding `"gen.out"` to `None`. -/
theorem claim_C10_none_indistinguishable_witness :
    (resolveSourcePath [("gen.out", .vNone)] "gen.out" = .vNone ∧
     resolveSourcePath (Dict.eraseKey [("gen.out", .vNone)] "gen.out") "gen.out" = .vNone) ∧
    (∃ e, resolveInputEntry true (fun _ => "v") [("gen.out", .vNone)] "text"
            (.vStr "gen.out") = .error e ∧
          resolveInputEntry true (fun _ => "v")
            (Dict.eraseKey [("gen.out", .vNone)] "gen.out") "text"
            (.vStr "gen.out") = .error e) ∧
    (resolveInputEntry false (fun _ => "v") [("gen.out", .vNone)] "text"
      (.vStr "gen.out") =
      .ok (.vStr "v", Dict.set [("gen.out", .vNone)] "gen.out" (.vStr "v")) ∧
     ∀ k, (Dict.set [("gen.out", .vNone)] "gen.out" (.vStr "v")).get? k =
       ((Dict.eraseKey [("gen.out", .vNone)] "gen.out").set "gen.out" (.vStr "v")).get? k) ∧
    (normalizeInitialInput none = .vNone ∧
     normalizeInitialInput (some (.vStr "")) = .vNone) :=
  claim_C10_none_indistinguishable (fun _ => "v") [("gen.out", .vNone)] "text" "gen.out"
    (by decide) (by decide)

/-! ## Claim C5 -/

/-- Claim C5: every `_update_state` patch entry `(k, v)` emitted by agent `A`
is merged into the state under `patchKey A k`, which is `A ++ "." ++ k` when
`k` contains no dot and `k` verbatim when it does; and no state key other than
those named by the (possibly namespaced) patch entries is modified. -/
theorem claim_C5_state_patch (A : String) (outputs patch state : Dict)
    (hdir : outputs.get? "_update_state" = some (.vDict patch))
    (hnd : (patch.map fun kv => patchKey A kv.1).Nodup) :
    (∀ k, hasDot k = false → patchKey A k = A ++ "." ++ k) ∧
    (∀ k, hasDot k = true → patchKey A k = k) ∧
    (∀ kv ∈ patch,
      (applyUpdateStateDirective A outputs state).get? (patchKey A kv.1) = some kv.2) ∧
    (∀ key, key ∉ patch.map (fun kv => patchKey A kv.1) →
      (applyUpdateStateDirective A outputs state).get? key = state.get? key) := by
  refine ⟨fun k hk => by simp [patchKey, hk], fun k hk => by simp [patchKey, hk], ?_, ?_⟩
  · intro kv hm
    rw [applyUpdateStateDirective, hdir]
    exact applyStatePatch_get?_mem A patch state kv.1 kv.2 hm hnd
  · intro key hk
    rw [applyUpdateStateDirective, hdir]
    exact applyStatePatch_get?_not_mem A patch state key fun kv hm heq =>
      hk (heq ▸ List.mem_map_of_mem (fun kv => patchKey A kv.1) hm)

/-- Witness for claim C5 at a concrete patch: one dotted key written verbatim,
one plain key namespaced, and an untouched key left unchanged. -/
theorem claim_C5_state_patch_witness :
    (applyUpdateStateDirective "router"
        [("_update_state", .vDict [("count", .vInt 2), ("other.view", .vStr "x")])]
        [("router.count", .vInt 1), ("keep.me", .vInt 9)]).get? "router.count" =
      some (.vInt 2) ∧
    (applyUpdateStateDirective "router"
        [("_update_state", .vDict [("count", .vInt 2), ("other.view", .vStr "x")])]
        [("router.count", .vInt 1), ("keep.me", .vInt 9)]).get? "keep.me" =
      some (.vInt 9) := by
  have h := claim_C5_state_patch "router"
    [("_update_state", .vDict [("count", .vInt 2), ("other.view", .vStr "x")])]
    [("count", .vInt 2), ("other.view", .vStr "x")]
    [("router.count", .vInt 1), ("keep.me", .vInt 9)]
    (by decide) (by decide)
  refine ⟨?_, h.2.2.2 "keep.me" (by decide)⟩
  have := h.2.2.1 ("count", .vInt 2) (by decide)
  simpa using this

/-! ## Claim C6 -/

/-- Claim C6: a `_clear_agent_outputs` directive naming `ids` removes exactly
the state keys bearing a `"<clearedAgentId>."` prefix for some named id: after
it is applied no such key remains, and every other key is unchanged. -/
theorem claim_C6_clear_outputs (outputs state : Dict) (ids : List String)
    (hdir : outputs.get? "_clear_agent_outputs" = some (.vList (ids.map .vStr))) :
    (∀ key a, a ∈ ids → strStartsWith key (a ++ ".") = true →
      (applyClearOutputsDirective outputs state).get? key = none) ∧
    (∀ key, (∀ a ∈ ids, strStartsWith key (a ++ ".") = false) →
      (applyClearOutputsDirective outputs state).get? key = state.get? key) := by
  rw [applyClearOutputsDirective, clearedAgentIds_of_strs outputs ids hdir]
  constructor
  · intro key a ha hpre
    exact purgeClearedKeys_get?_cleared ids state key
      (List.any_eq_true.mpr ⟨a, ha, hpre⟩)
  · intro key hall
    exact purgeClearedKeys_get?_kept ids state key
      (by simpa [List.any_eq_false] using hall)

/-- Witness for claim C6 at a concrete state: the cleared agent's two output
keys disappear, an unrelated agent's key survives. -/
theorem claim_C6_clear_outputs_witness :
    (applyClearOutputsDirective [("_clear_agent_outputs", .vList [.vStr "gen"])]
        [("gen.item", .vStr "a"), ("gen.note", .vStr "b"), ("router.count", .vInt 1)]).get?
        "gen.item" = none ∧
    (applyClearOutputsDirective [("_clear_agent_outputs", .vList [.vStr "gen"])]
        [("gen.item", .vStr "a"), ("gen.note", .vStr "b"), ("router.count", .vInt 1)]).get?
        "router.count" = some (.vInt 1) := by
  have h := claim_C6_clear_outputs [("_clear_agent_outputs", .vList [.vStr "gen"])]
    [("gen.item", .vStr "a"), ("gen.note", .vStr "b"), ("router.count", .vInt 1)]
    ["gen"] (by decide)
  exact ⟨h.1 "gen.item" "gen" (by decide) (by decide),
    h.2 "router.count" (by decide)⟩

/-! ## Claim C8 -/

/-- Claim C8: a present and truthy `_next_step_id` override decides the next
agent, the routing table being ignored whatever it contains; with a missing or
falsy override (Python `None` routes here) the routing table entry of the
current agent decides, a falsy result terminating the run loop. -/
theorem claim_C8_routing_precedence (outputs routing : Dict) (current : String) :
    (∀ v, outputs.get? "_next_step_id" = some v → v.truthy = true →
      nextAgentAfter outputs routing current = v) ∧
    (outputs.get? "_next_step_id" = none →
      nextAgentAfter outputs routing current = staticNextAgent routing current) ∧
    (∀ v, outputs.get? "_next_step_id" = some v → v.truthy = false →
      nextAgentAfter outputs routing current = staticNextAgent routing current) := by
  refine ⟨fun v hv ht => ?_, fun hv => ?_, fun v hv ht => ?_⟩
  · simp [nextAgentAfter, hv, ht]
  · simp [nextAgentAfter, hv]
  · simp [nextAgentAfter, hv, ht]

/-- Witness for claim C8: a truthy override beats a routing entry pointing
elsewhere, and a `None` override falls back to it. -/
theorem claim_C8_routing_precedence_witness :
    nextAgentAfter [("_next_step_id", .vStr "b")]
      [("a", .vDict [("next", .vStr "c")])] "a" = .vStr "b" ∧
    nextAgentAfter [("_next_step_id", .vNone)]
      [("a", .vDict [("next", .vStr "c")])] "a" =
      staticNextAgent [("a", .vDict [("next", .vStr "c")])] "a" := by
  refine ⟨?_, ?_⟩
  · exact (claim_C8_routing_precedence [("_next_step_id", .vStr "b")]
      [("a", .vDict [("next", .vStr "c")])] "a").1 (.vStr "b") (by decide) (by decide)
  · exact (claim_C8_routing_precedence [("_next_step_id", .vNone)]
      [("a", .vDict [("next", .vStr "c")])] "a").2.2 .vNone (by decide) (by decide)

/-! ## Helper lemmas: the loop controller's aggregation and termination -/

theorem dotKey_ne_empty (a y : String) : a ++ "." ++ y ≠ "" := by
  intro h
  have hd := congrArg String.data h
  rw [data_append_dot, show ("" : String).data = [] from rfl] at hd
  rcases List.append_eq_nil.mp hd with ⟨_, h2⟩
  exact List.noConfusion h2

theorem namespacedName_some (a out : String) (ha : a ≠ "") (hout : out ≠ "") :
    namespacedName (some a) out = a ++ "." ++ out := by
  simp [namespacedName, ha, hout]

theorem aggregateAccumulators_ok (a : String) (ha : a ≠ "")
    (accs : List (String × String)) (houts : ∀ os ∈ accs, os.1 ≠ "")
    (inputs st : Dict) :
    ∀ upd0, aggregateAccumulators (some a) accs inputs st upd0 =
      .ok (aggregatePure a accs inputs st upd0) := by
  induction accs with
  | nil => intro upd0; rfl
  | cons os rest ih =>
      intro upd0
      obtain ⟨out, src⟩ := os
      have hout : out ≠ "" := houts (out, src) (List.mem_cons_self _ _)
      have hrest : ∀ os ∈ rest, os.1 ≠ "" := fun os hm => houts os (List.mem_cons_of_mem _ hm)
      have ih2 := ih hrest
      cases hin : inputs.get? src with
      | none =>
          simp only [aggregateAccumulators, aggregatePure, contributedValue, hin]
          exact ih2 upd0
      | some v =>
          by_cases hc : (!v.isNone && !Value.pyEq v (.vStr "")) = true
          · simp only [aggregateAccumulators, aggregatePure, contributedValue, hin, hc,
              if_true, namespacedName_some a out ha hout, if_neg (dotKey_ne_empty a out),
              stateListAt]
            exact ih2 _
          · simp only [aggregateAccumulators, aggregatePure, contributedValue, hin, hc,
              if_false]
            exact ih2 upd0

theorem aggregatePure_get?_not_mem (a : String) (accs : List (String × String))
    (inputs st : Dict) : ∀ (upd0 : Dict) (key : String), key ∉ accs.map Prod.fst →
    (aggregatePure a accs inputs st upd0).get? key = upd0.get? key := by
  induction accs with
  | nil => intro upd0 key _; rfl
  | cons os rest ih =>
      intro upd0 key hk
      obtain ⟨out, src⟩ := os
      rw [List.map_cons, List.mem_cons] at hk
      push_neg at hk
      cases hc : contributedValue inputs src with
      | some v =>
          simp only [aggregatePure, hc]
          rw [ih _ _ hk.2, Dict.get?_set_ne _ _ _ _ (Ne.symm hk.1)]
      | none =>
          simp only [aggregatePure, hc]
          exact ih _ _ hk.2

theorem aggregatePure_get?_mem (a : String) (accs : List (String × String))
    (inputs st : Dict) : ∀ (upd0 : Dict) (out src : String), (out, src) ∈ accs →
    (accs.map Prod.fst).Nodup →
    (aggregatePure a accs inputs st upd0).get? out =
      (match contributedValue inputs src with
       | some v => some (.vList (stateListAt st (a ++ "." ++ out) ++ [v]))
       | none => upd0.get? out) := by
  induction accs with
  | nil => intro upd0 out src hm; exact absurd hm (List.not_mem_nil _)
  | cons os rest ih =>
      intro upd0 out src hm hnd
      obtain ⟨out1, src1⟩ := os
      rw [List.map_cons, List.nodup_cons] at hnd
      rcases List.mem_cons.mp hm with heq | hm2
      · have h1 : out = out1 := congrArg Prod.fst heq
        have h2 : src = src1 := congrArg Prod.snd heq
        subst h1
        subst h2
        cases hc : contributedValue inputs src with
        | some v =>
            simp only [aggregatePure, hc]
            rw [aggregatePure_get?_not_mem a rest inputs st _ _ hnd.1,
              Dict.get?_set_self]
        | none =>
            simp only [aggregatePure, hc]
            exact aggregatePure_get?_not_mem a rest inputs st _ _ hnd.1
      · have hne : out ≠ out1 := fun hh =>
          hnd.1 (List.mem_map.mpr ⟨(out, src), hm2, hh⟩)
        cases hc : contributedValue inputs src1 with
        | some v =>
            simp only [aggregatePure, hc]
            rw [ih _ _ _ hm2 hnd.2]
            cases contributedValue inputs src with
            | some w => rfl
            | none => exact Dict.get?_set_ne _ _ _ _ (Ne.symm hne)
        | none =>
            simp only [aggregatePure, hc]
            exact ih _ _ _ hm2 hnd.2

theorem terminationOutputs_get?_not_mem (a : String) (accs : List (String × String))
    (upd st : Dict) : ∀ (fo : Dict) (key : String), key ∉ accs.map Prod.fst →
    (terminationOutputs (some a) accs upd st fo).get? key = fo.get? key := by
  induction accs with
  | nil => intro fo key _; rfl
  | cons os rest ih =>
      intro fo key hk
      obtain ⟨out, src⟩ := os
      rw [List.map_cons, List.mem_cons] at hk
      push_neg at hk
      cases hc : upd.get? out with
      | some v =>
          simp only [terminationOutputs, hc]
          rw [ih _ _ hk.2, Dict.get?_set_ne _ _ _ _ (Ne.symm hk.1)]
      | none =>
          simp only [terminationOutputs, hc]
          by_cases hemp : namespacedName (some a) out = ""
          · rw [if_pos hemp]
            exact ih _ _ hk.2
          · rw [if_neg hemp, ih _ _ hk.2, Dict.get?_set_ne _ _ _ _ (Ne.symm hk.1)]

theorem terminationOutputs_get?_mem (a : String) (ha : a ≠ "")
    (accs : List (String × String)) (upd st : Dict) :
    ∀ (fo : Dict) (out src : String), (out, src) ∈ accs →
    (accs.map Prod.fst).Nodup → (∀ os ∈ accs, os.1 ≠ "") →
    (terminationOutputs (some a) accs upd st fo).get? out =
      some (match upd.get? out with
            | some v => v
            | none => st.getD (a ++ "." ++ out) (.vList [])) := by
  induction accs with
  | nil => intro fo out src hm; exact absurd hm (List.not_mem_nil _)
  | cons os rest ih =>
      intro fo out src hm hnd houts
      obtain ⟨out1, src1⟩ := os
      rw [List.map_cons, List.nodup_cons] at hnd
      have hrest : ∀ os ∈ rest, os.1 ≠ "" := fun os hm2 => houts os (List.mem_cons_of_mem _ hm2)
      rcases List.mem_cons.mp hm with heq | hm2
      · have h1 : out = out1 := congrArg Prod.fst heq
        subst h1
        have hout : out ≠ "" := houts (out, src1) (List.mem_cons_self _ _)
        cases hc : upd.get? out with
        | some v =>
            simp only [terminationOutputs, hc]
            rw [terminationOutputs_get?_not_mem a rest upd st _ _ hnd.1,
              Dict.get?_set_self]
        | none =>
            simp only [terminationOutputs, hc, namespacedName_some a out ha hout,
              if_neg (dotKey_ne_empty a out)]
            rw [terminationOutputs_get?_not_mem a rest upd st _ _ hnd.1,
              Dict.get?_set_self]
      · cases hc : upd.get? out1 with
        | some v =>
            simp only [terminationOutputs, hc]
            exact ih _ _ _ hm2 hnd.2 hrest
        | none =>
            simp only [terminationOutputs, hc]
            by_cases hemp : namespacedName (some a) out1 = ""
            · rw [if_pos hemp]
              exact ih _ _ _ hm2 hnd.2 hrest
            · rw [if_neg hemp]
              exact ih _ _ _ hm2 hnd.2 hrest

/-- Reduction of the router's loop mode under a well-formed counter
configuration: the call either continues (counter below the total) or
terminates, with the aggregation result `aggregatePure` in both branches. -/
theorem conditionalRouterExecute_loop (inputs : Dict) (cfg : RouterConfig) (lc : LoopConfig)
    (st : Dict) (a cn : String) (T c : Int)
    (hcfg : cfg.loop_config = some lc)
    (hres : resolveTotalIterations lc.total_iterations_from inputs = .ok T)
    (hcn : lc.counter_name = some cn)
    (ha : a ≠ "") (hcne : cn ≠ "")
    (hcount : st.getD (a ++ "." ++ cn) (.vInt 0) = .vInt c)
    (houts : ∀ os ∈ lc.accumulators, os.1 ≠ "") :
    conditionalRouterExecute inputs cfg st (some a) =
      if c < T then
        .ok [("_next_step_id", lc.loop_body_start_id),
             ("_update_state",
              .vDict ((aggregatePure a lc.accumulators inputs st []).set cn (.vInt (c + 1)))),
             ("_clear_agent_outputs", .vList (lc.loop_body_agents.map Value.vStr))]
      else
        .ok (terminationOutputs (some a) lc.accumulators
              (aggregatePure a lc.accumulators inputs st []) st
              [("_next_step_id", cfg.else_execute_step)]) := by
  simp only [conditionalRouterExecute, hcfg, hcn, namespacedCounterKey,
    namespacedName_some a cn ha hcne, dotKey_ne_empty a cn, hres,
    aggregateAccumulators_ok a ha lc.accumulators houts inputs st, hcount, hcne,
    if_false, if_true, ite_false, ite_true]
  rw [if_pos hcne]

/-! ## Claim C2 (corrected) -/

/-- Claim C2, amended: a loop-mode router invoked with counter `c` at least the
total `T` returns a termination result — next-step override equal to the
configured `else_execute_step`, no `_update_state` patch and no clear
directive, and each accumulator's final list carried as an ordinary output:
the candidate list including this call's contribution when the feeding input
contributed one, else the value already in state (defaulting to `[]`).  With
`T = 0` the very first call therefore immediately terminates with no patch,
the accumulator list being empty provided the feeding input contributed
nothing at that call and no accumulator entry pre-existed in state. -/
theorem claim_C2_termination (inputs : Dict) (cfg : RouterConfig) (lc : LoopConfig)
    (st : Dict) (a cn : String) (T c : Int)
    (hcfg : cfg.loop_config = some lc)
    (hT : lc.total_iterations_from = .vInt T)
    (hcn : lc.counter_name = some cn)
    (ha : a ≠ "") (hcne : cn ≠ "")
    (hcount : st.getD (a ++ "." ++ cn) (.vInt 0) = .vInt c)
    (hterm : T ≤ c)
    (houts : ∀ os ∈ lc.accumulators, os.1 ≠ "")
    (hnd : (lc.accumulators.map Prod.fst).Nodup)
    (hspec : ∀ os ∈ lc.accumulators,
      os.1 ≠ "_next_step_id" ∧ os.1 ≠ "_update_state" ∧ os.1 ≠ "_clear_agent_outputs") :
    ∃ out_dict,
      conditionalRouterExecute inputs cfg st (some a) = .ok out_dict ∧
      out_dict.get? "_next_step_id" = some cfg.else_execute_step ∧
      out_dict.get? "_update_state" = none ∧
      out_dict.get? "_clear_agent_outputs" = none ∧
      (∀ os ∈ lc.accumulators,
        out_dict.get? os.1 =
          some (match contributedValue inputs os.2 with
                | some v => .vList (stateListAt st (a ++ "." ++ os.1) ++ [v])
                | none => st.getD (a ++ "." ++ os.1) (.vList []))) ∧
      (∀ os ∈ lc.accumulators, contributedValue inputs os.2 = none →
        st.get? (a ++ "." ++ os.1) = none →
        out_dict.get? os.1 = some (.vList [])) := by
  have hnm1 : "_next_step_id" ∉ lc.accumulators.map Prod.fst := by
    intro hmem
    obtain ⟨os, hos, heq⟩ := List.mem_map.mp hmem
    exact (hspec os hos).1 heq
  have hnm2 : "_update_state" ∉ lc.accumulators.map Prod.fst := by
    intro hmem
    obtain ⟨os, hos, heq⟩ := List.mem_map.mp hmem
    exact (hspec os hos).2.1 heq
  have hnm3 : "_clear_agent_outputs" ∉ lc.accumulators.map Prod.fst := by
    intro hmem
    obtain ⟨os, hos, heq⟩ := List.mem_map.mp hmem
    exact (hspec os hos).2.2 heq
  have hgetacc : ∀ os ∈ lc.accumulators,
      (terminationOutputs (some a) lc.accumulators
        (aggregatePure a lc.accumulators inputs st []) st
        [("_next_step_id", cfg.else_execute_step)]).get? os.1 =
      some (match contributedValue inputs os.2 with
            | some v => .vList (stateListAt st (a ++ "." ++ os.1) ++ [v])
            | none => st.getD (a ++ "." ++ os.1) (.vList [])) := by
    intro os hos
    obtain ⟨out, src⟩ := os
    rw [terminationOutputs_get?_mem a ha lc.accumulators _ st _ out src hos hnd houts,
      aggregatePure_get?_mem a lc.accumulators inputs st [] out src hos hnd]
    cases contributedValue inputs src with
    | some v => rfl
    | none => rfl
  refine ⟨terminationOutputs (some a) lc.accumulators
      (aggregatePure a lc.accumulators inputs st []) st
      [("_next_step_id", cfg.else_execute_step)], ?_, ?_, ?_, ?_, hgetacc, ?_⟩
  · rw [conditionalRouterExecute_loop inputs cfg lc st a cn T c hcfg (by rw [hT]; rfl)
      hcn ha hcne hcount houts, if_neg (not_lt.mpr hterm)]
  · rw [terminationOutputs_get?_not_mem a lc.accumulators _ st _ _ hnm1]
    rfl
  · rw [terminationOutputs_get?_not_mem a lc.accumulators _ st _ _ hnm2]
    rfl
  · rw [terminationOutputs_get?_not_mem a lc.accumulators _ st _ _ hnm3]
    rfl
  · intro os hos hcontrib habsent
    rw [hgetacc os hos, hcontrib]
    rw [Dict.getD, habsent]
    rfl

/-- Witness for claim C2 at a concrete terminating call: counter 2, total 2,
one accumulator fed by a present input. -/
theorem claim_C2_termination_witness :
    ∃ out_dict,
      conditionalRouterExecute [("item", .vStr "c")]
        (mkLoopRouterConfig (.vInt 2) (.vStr "gen") (some "ctr") [("all", "item")] ["gen"]
          (.vStr "done"))
        [("r.ctr", .vInt 2), ("r.all", .vList [.vStr "a", .vStr "b"])] (some "r") =
        .ok out_dict ∧
      out_dict.get? "_next_step_id" =
        some (mkLoopRouterConfig (.vInt 2) (.vStr "gen") (some "ctr") [("all", "item")]
          ["gen"] (.vStr "done")).else_execute_step ∧
      out_dict.get? "_update_state" = none ∧
      out_dict.get? "_clear_agent_outputs" = none ∧
      (∀ os ∈ [(("all" : String), ("item" : String))],
        out_dict.get? os.1 =
          some (match contributedValue [("item", .vStr "c")] os.2 with
                | some v =>
                    .vList (stateListAt
                      [("r.ctr", .vInt 2), ("r.all", .vList [.vStr "a", .vStr "b"])]
                      ("r" ++ "." ++ os.1) ++ [v])
                | none =>
                    Dict.getD [("r.ctr", .vInt 2), ("r.all", .vList [.vStr "a", .vStr "b"])]
                      ("r" ++ "." ++ os.1) (.vList []))) ∧
      (∀ os ∈ [(("all" : String), ("item" : String))],
        contributedValue [("item", .vStr "c")] os.2 = none →
        Dict.get? [("r.ctr", .vInt 2), ("r.all", .vList [.vStr "a", .vStr "b"])]
          ("r" ++ "." ++ os.1) = none →
        out_dict.get? os.1 = some (.vList [])) :=
  claim_C2_termination [("item", .vStr "c")]
    (mkLoopRouterConfig (.vInt 2) (.vStr "gen") (some "ctr") [("all", "item")] ["gen"]
      (.vStr "done"))
    ⟨.vInt 2, .vStr "gen", some "ctr", [("all", "item")], ["gen"]⟩
    [("r.ctr", .vInt 2), ("r.all", .vList [.vStr "a", .vStr "b"])] "r" "ctr" 2 2
    rfl rfl rfl (by decide) (by decide) (by decide) (by decide) (by decide) (by decide)
    (by decide)

/-- Counterexample for claim C2 as stated: with `total_iterations = 0` and an
accumulator whose feeding input is present and non-empty at the very first
call, the termination directive carries the singleton list of that value, not
an empty accumulator list. -/
theorem claim_C2_counterexample :
    conditionalRouterExecute [("item", .vStr "a")]
      (mkLoopRouterConfig (.vInt 0) (.vStr "g") (some "c") [("out", "item")] ["g"]
        (.vStr "done"))
      [] (some "r") =
      .ok [("_next_step_id", .vStr "done"), ("out", .vList [.vStr "a"])] ∧
    Value.vList [.vStr "a"] ≠ Value.vList [] := by
  decide

/-- Reduction of `resolveTotalIterations` on a non-empty key name. -/
theorem resolveTotalIterations_vStr (key : String) (hkey : key ≠ "") (inputs : Dict) :
    resolveTotalIterations (.vStr key) inputs =
      (match inputs.getD key .vNone with
       | .vNone =>
           .error ("Looping error: Total iterations key '" ++ key ++ "' not found in inputs.")
       | v =>
           match pyToInt v with
           | some t => .ok t
           | none => .error ("Looping error: Input '" ++ key ++ "' must be an integer.")) := by
  simp only [resolveTotalIterations]
  rw [if_neg hkey]

/-! ## Claim C3 (corrected) -/

/-- Claim C3, amended: the total-iteration source is either a literal integer
or the name of a resolved input.  When it is a name, the referenced input must
be present, non-`None` and parse as an integer: an empty key name, an absent
input, an unparseable value, or a source of any other type each raise the
loop-configuration error before any loop-body step can run.  A value parsing
to a NEGATIVE integer, however, is not rejected: the controller accepts it,
and on a fresh loop (counter reading 0) the very first call simply returns the
termination directive instead of failing. -/
theorem claim_C3_total_iteration_source (inputs : Dict) (key : String) (hkey : key ≠ "") :
    (∃ e, resolveTotalIterations (.vStr "") inputs = .error e) ∧
    (inputs.getD key .vNone = .vNone →
      ∃ e, resolveTotalIterations (.vStr key) inputs = .error e) ∧
    (∀ v, inputs.getD key .vNone = v → v ≠ .vNone → pyToInt v = none →
      ∃ e, resolveTotalIterations (.vStr key) inputs = .error e) ∧
    (∀ v n, inputs.getD key .vNone = v → v ≠ .vNone → pyToInt v = some n →
      resolveTotalIterations (.vStr key) inputs = .ok n) ∧
    (∀ cfgv, (∀ t, cfgv ≠ Value.vInt t) → (∀ s2, cfgv ≠ Value.vStr s2) →
      ∃ e, resolveTotalIterations cfgv inputs = .error e) ∧
    (∀ (cfg : RouterConfig) (lc : LoopConfig) (st : Dict) (a cn e : String),
      cfg.loop_config = some lc → lc.counter_name = some cn → a ≠ "" → cn ≠ "" →
      resolveTotalIterations lc.total_iterations_from inputs = .error e →
      conditionalRouterExecute inputs cfg st (some a) = .error e) ∧
    (∀ (cfg : RouterConfig) (lc : LoopConfig) (st : Dict) (a cn : String) (n : Int),
      cfg.loop_config = some lc → lc.counter_name = some cn → a ≠ "" → cn ≠ "" →
      resolveTotalIterations lc.total_iterations_from inputs = .ok n → n ≤ 0 →
      st.getD (a ++ "." ++ cn) (.vInt 0) = .vInt 0 →
      (∀ os ∈ lc.accumulators, os.1 ≠ "") →
      conditionalRouterExecute inputs cfg st (some a) =
        .ok (terminationOutputs (some a) lc.accumulators
              (aggregatePure a lc.accumulators inputs st []) st
              [("_next_step_id", cfg.else_execute_step)])) := by
  refine ⟨⟨_, rfl⟩, ?_, ?_, ?_, ?_, ?_, ?_⟩
  · intro habs
    refine ⟨"Looping error: Total iterations key '" ++ key ++ "' not found in inputs.", ?_⟩
    rw [resolveTotalIterations_vStr key hkey, habs]
  · intro v hv hvn hp
    refine ⟨"Looping error: Input '" ++ key ++ "' must be an integer.", ?_⟩
    rw [resolveTotalIterations_vStr key hkey, hv]
    cases v with
    | vNone => exact absurd rfl hvn
    | vInt n => simp [pyToInt] at hp
    | vStr s2 =>
        have hp2 : pyIntOfString s2 = none := hp
        dsimp only [pyToInt]
        rw [hp2]
    | vList xs => rfl
    | vDict entries => rfl
  · intro v n hv hvn hp
    rw [resolveTotalIterations_vStr key hkey, hv]
    cases v with
    | vNone => exact absurd rfl hvn
    | vInt m =>
        have hm : m = n := by simpa [pyToInt] using hp
        rw [hm]
        rfl
    | vStr s2 =>
        have hp2 : pyIntOfString s2 = some n := hp
        dsimp only [pyToInt]
        rw [hp2]
    | vList xs => simp [pyToInt] at hp
    | vDict entries => simp [pyToInt] at hp
  · intro cfgv hint hstr
    cases cfgv with
    | vNone => exact ⟨_, rfl⟩
    | vInt t => exact absurd rfl (hint t)
    | vStr s2 => exact absurd rfl (hstr s2)
    | vList xs => exact ⟨_, rfl⟩
    | vDict entries => exact ⟨_, rfl⟩
  · intro cfg lc st a cn e hcfg hcn ha hcne hres
    simp only [conditionalRouterExecute, hcfg, hcn, namespacedCounterKey,
      namespacedName_some a cn ha hcne, dotKey_ne_empty a cn, hres,
      if_false, if_true, ite_false, ite_true]
  · intro cfg lc st a cn n hcfg hcn ha hcne hres hneg hcount houts
    rw [conditionalRouterExecute_loop inputs cfg lc st a cn n 0 hcfg hres hcn ha hcne
      hcount houts, if_neg (not_lt.mpr hneg)]

/-- Witness for claim C3 at concrete inputs: an absent key errors, a
string-valued count parses, and a negative count terminates at once. -/
theorem claim_C3_total_iteration_source_witness :
    (∀ v n, Dict.getD [("n", .vStr "4")] "n" .vNone = v → v ≠ .vNone →
      pyToInt v = some n →
      resolveTotalIterations (.vStr "n") [("n", .vStr "4")] = .ok n) ∧
    (∀ (cfg : RouterConfig) (lc : LoopConfig) (st : Dict) (a cn : String) (n : Int),
      cfg.loop_config = some lc → lc.counter_name = some cn → a ≠ "" → cn ≠ "" →
      resolveTotalIterations lc.total_iterations_from [("n", .vStr "4")] = .ok n → n ≤ 0 →
      st.getD (a ++ "." ++ cn) (.vInt 0) = .vInt 0 →
      (∀ os ∈ lc.accumulators, os.1 ≠ "") →
      conditionalRouterExecute [("n", .vStr "4")] cfg st (some a) =
        .ok (terminationOutputs (some a) lc.accumulators
              (aggregatePure a lc.accumulators [("n", .vStr "4")] st []) st
              [("_next_step_id", cfg.else_execute_step)])) := by
  have h := claim_C3_total_iteration_source [("n", .vStr "4")] "n" (by decide)
  exact ⟨h.2.2.2.1, h.2.2.2.2.2.2⟩

/-- Counterexample for claim C3 as stated: a total-iteration source naming an
input that resolves to the NEGATIVE integer `-3` does not fail with a
loop-configuration error — the controller returns the termination directive. -/
theorem claim_C3_counterexample :
    conditionalRouterExecute [("n", .vInt (-3))]
      (mkLoopRouterConfig (.vStr "n") (.vStr "g") (some "c") [] [] (.vStr "done"))
      [] (some "r") =
      .ok [("_next_step_id", .vStr "done")] := by
  decide

/-! ## Helper lemmas: the plain conditional mode -/

theorem routeConditionGroups_all_no_match (inputs : Dict) (gs : List CondGroup)
    (h : ∀ g ∈ gs,
      (g.varName.truthy && g.operator.truthy && g.then_execute_step.truthy) = false ∨
      evalCondition (conditionSubject inputs g.varName) g.operator g.value = .ok false) :
    routeConditionGroups inputs gs = .ok none := by
  induction gs with
  | nil => rfl
  | cons g rest ih =>
      have hrest := ih fun g2 hm => h g2 (List.mem_cons_of_mem _ hm)
      rcases h g (List.mem_cons_self _ _) with hskip | hfalse
      · rw [routeConditionGroups, hskip]
        exact hrest
      · by_cases hact :
          (g.varName.truthy && g.operator.truthy && g.then_execute_step.truthy) = true
        · rw [routeConditionGroups, hact, hfalse]
          simpa using hrest
        · rw [routeConditionGroups, Bool.eq_false_iff.mpr hact]
          exact hrest

theorem routeConditionGroups_first_match (inputs : Dict) (pre : List CondGroup)
    (g : CondGroup) (post : List CondGroup)
    (hpre : ∀ g2 ∈ pre,
      (g2.varName.truthy && g2.operator.truthy && g2.then_execute_step.truthy) = false ∨
      evalCondition (conditionSubject inputs g2.varName) g2.operator g2.value = .ok false)
    (hact : (g.varName.truthy && g.operator.truthy && g.then_execute_step.truthy) = true)
    (hmatch : evalCondition (conditionSubject inputs g.varName) g.operator g.value = .ok true) :
    routeConditionGroups inputs (pre ++ g :: post) = .ok (some g.then_execute_step) := by
  induction pre with
  | nil =>
      rw [List.nil_append, routeConditionGroups, hact, hmatch]
      rfl
  | cons g2 rest ih =>
      have ih2 := ih fun g3 hm => hpre g3 (List.mem_cons_of_mem _ hm)
      rcases hpre g2 (List.mem_cons_self _ _) with hskip | hfalse
      · rw [List.cons_append, routeConditionGroups, hskip]
        exact ih2
      · by_cases hact2 :
          (g2.varName.truthy && g2.operator.truthy && g2.then_execute_step.truthy) = true
        · rw [List.cons_append, routeConditionGroups, hact2, hfalse]
          simpa using ih2
        · rw [List.cons_append, routeConditionGroups, Bool.eq_false_iff.mpr hact2]
          exact ih2

/-! ## Claim C7 (corrected) -/

/-- Claim C7, amended: the plain conditional mode evaluates its condition
groups in order with the operators `equals`, `not_equals`, `contains`,
`not_contains`, `gt` and `lt`; `contains`/`not_contains` can only match when
the subject is a string, list or mapping, `gt`/`lt` only when the subject is
numeric, and a mismatch of the SUBJECT's type counts as "does not match"
rather than an error; the first matching active group's `then_execute_step` is
returned as the override, and when no group matches the configured (truthy)
`else_execute_step` is returned, or the empty output map when none is
configured.  When the subject passes its type guard but the comparison value
is incompatible (a non-string needle against a string subject, an unhashable
needle against a mapping, or a non-numeric bound for `gt`/`lt`), the
comparison raises a type error instead of counting as a non-match. -/
theorem claim_C7_conditional_routing :
    (∀ (inputs : Dict) (g : CondGroup),
      (g.operator = .vStr "contains" ∨ g.operator = .vStr "not_contains") →
      isContainsSubject (conditionSubject inputs g.varName) = false →
      evalCondition (conditionSubject inputs g.varName) g.operator g.value = .ok false) ∧
    (∀ (inputs : Dict) (g : CondGroup),
      (g.operator = .vStr "gt" ∨ g.operator = .vStr "lt") →
      isNumericSubject (conditionSubject inputs g.varName) = false →
      evalCondition (conditionSubject inputs g.varName) g.operator g.value = .ok false) ∧
    (∀ (inputs st : Dict) (aid : Option String) (pre post : List CondGroup)
       (g : CondGroup) (elseStep : Value),
      (∀ g2 ∈ pre,
        (g2.varName.truthy && g2.operator.truthy && g2.then_execute_step.truthy) = false ∨
        evalCondition (conditionSubject inputs g2.varName) g2.operator g2.value = .ok false) →
      (g.varName.truthy && g.operator.truthy && g.then_execute_step.truthy) = true →
      evalCondition (conditionSubject inputs g.varName) g.operator g.value = .ok true →
      conditionalRouterExecute inputs ⟨none, pre ++ g :: post, elseStep⟩ st aid =
        .ok [("_next_step_id", g.then_execute_step)]) ∧
    (∀ (inputs st : Dict) (aid : Option String) (gs : List CondGroup) (elseStep : Value),
      (∀ g2 ∈ gs,
        (g2.varName.truthy && g2.operator.truthy && g2.then_execute_step.truthy) = false ∨
        evalCondition (conditionSubject inputs g2.varName) g2.operator g2.value = .ok false) →
      elseStep.truthy = true →
      conditionalRouterExecute inputs ⟨none, gs, elseStep⟩ st aid =
        .ok [("_next_step_id", elseStep)]) ∧
    (∀ (inputs st : Dict) (aid : Option String) (gs : List CondGroup) (elseStep : Value),
      (∀ g2 ∈ gs,
        (g2.varName.truthy && g2.operator.truthy && g2.then_execute_step.truthy) = false ∨
        evalCondition (conditionSubject inputs g2.varName) g2.operator g2.value = .ok false) →
      elseStep.truthy = false →
      conditionalRouterExecute inputs ⟨none, gs, elseStep⟩ st aid = .ok []) := by
  refine ⟨?_, ?_, ?_, ?_, ?_⟩
  · intro inputs g hop hsub
    rcases hop with hop | hop <;>
      simp [evalCondition, hop, Value.pyEq, hsub]
  · intro inputs g hop hsub
    rcases hop with hop | hop <;>
      simp [evalCondition, hop, Value.pyEq, hsub]
  · intro inputs st aid pre post g elseStep hpre hact hmatch
    simp only [conditionalRouterExecute,
      routeConditionGroups_first_match inputs pre g post hpre hact hmatch]
  · intro inputs st aid gs elseStep hall helse
    simp only [conditionalRouterExecute, routeConditionGroups_all_no_match inputs gs hall,
      helse, if_true, ite_true]
  · intro inputs st aid gs elseStep hall helse
    simp only [conditionalRouterExecute, routeConditionGroups_all_no_match inputs gs hall,
      helse, if_false, ite_false]
    rfl

/-- Witness for claim C7: a first group whose numeric subject fails the guard
is skipped as a non-match, and the second group matches and routes. -/
theorem claim_C7_conditional_routing_witness :
    conditionalRouterExecute [("x", .vStr "high"), ("y", .vInt 7)]
      ⟨none,
       [⟨.vStr "x", .vStr "gt", .vInt 5, .vStr "a"⟩,
        ⟨.vStr "y", .vStr "equals", .vInt 7, .vStr "b"⟩],
       .vStr "e"⟩ [] none =
      .ok [("_next_step_id", .vStr "b")] := by
  have h := (claim_C7_conditional_routing).2.2.1 [("x", .vStr "high"), ("y", .vInt 7)] []
    none [⟨.vStr "x", .vStr "gt", .vInt 5, .vStr "a"⟩] []
    ⟨.vStr "y", .vStr "equals", .vInt 7, .vStr "b"⟩ (.vStr "e")
    (by intro g2 hm
        rcases List.mem_singleton.mp hm with rfl
        right
        decide)
    (by decide) (by decide)
  exact h

/-- Counterexample for claim C7 as stated: with operator `gt`, a numeric
subject and a string comparison value, the type mismatch raises a `TypeError`
instead of counting as "does not match" (where the claim would have routed to
the configured else step). -/
theorem claim_C7_counterexample :
    conditionalRouterExecute [("x", .vInt 10)]
      ⟨none, [⟨.vStr "x", .vStr "gt", .vStr "5", .vStr "t"⟩], .vStr "e"⟩ [] none =
      .error "TypeError: order comparison not supported between operand types" := by
  decide

/-! ## Helper lemmas: dictionary membership and keys -/

theorem mem_set_self (d : Dict) (k : String) (v : Value) : (k, v) ∈ d.set k v := by
  induction d with
  | nil => exact List.mem_singleton_self _
  | cons kv rest ih =>
      obtain ⟨k2, w⟩ := kv
      by_cases h : k2 = k
      · subst h
        simp [Dict.set]
      · simp only [Dict.set, if_neg h]
        exact List.mem_cons_of_mem _ ih

theorem get?_eq_some_mem (d : Dict) (k : String) (v : Value) (h : d.get? k = some v) :
    (k, v) ∈ d := by
  induction d with
  | nil => exact absurd h (by simp [Dict.get?])
  | cons kv rest ih =>
      obtain ⟨k2, w⟩ := kv
      by_cases h2 : k2 = k
      · subst h2
        rw [Dict.get?, if_pos rfl] at h
        injection h with h
        subst h
        exact List.mem_cons_self _ _
      · rw [Dict.get?, if_neg h2] at h
        exact List.mem_cons_of_mem _ (ih h)

theorem get?_eq_none_keys (d : Dict) (k : String) (h : d.get? k = none) :
    ∀ kv ∈ d, kv.1 ≠ k := by
  induction d with
  | nil => intro kv hm; exact absurd hm (List.not_mem_nil _)
  | cons kv2 rest ih =>
      intro kv hm
      obtain ⟨k2, w⟩ := kv2
      by_cases h2 : k2 = k
      · rw [Dict.get?, if_pos h2] at h
        exact absurd h (by simp)
      · rw [Dict.get?, if_neg h2] at h
        rcases List.mem_cons.mp hm with rfl | hm2
        · exact h2
        · exact ih h kv hm2

theorem keys_set_subset (d : Dict) (k : String) (v : Value) :
    ∀ kv ∈ d.set k v, kv.1 = k ∨ kv.1 ∈ d.map Prod.fst := by
  induction d with
  | nil =>
      intro kv hm
      rcases List.mem_singleton.mp hm with rfl
      exact Or.inl rfl
  | cons kv2 rest ih =>
      intro kv hm
      obtain ⟨k2, w⟩ := kv2
      rw [List.map_cons]
      by_cases h : k2 = k
      · subst h
        rw [Dict.set, if_pos rfl] at hm
        rcases List.mem_cons.mp hm with rfl | hm2
        · exact Or.inl rfl
        · exact Or.inr (List.mem_cons_of_mem _ (List.mem_map_of_mem Prod.fst hm2))
      · rw [Dict.set, if_neg h] at hm
        rcases List.mem_cons.mp hm with rfl | hm2
        · exact Or.inr (List.mem_cons_self _ _)
        · rcases ih kv hm2 with h2 | h2
          · exact Or.inl h2
          · exact Or.inr (List.mem_cons_of_mem _ h2)

theorem nodup_keys_set (d : Dict) (k : String) (v : Value)
    (h : (d.map Prod.fst).Nodup) : ((d.set k v).map Prod.fst).Nodup := by
  induction d with
  | nil => simp [Dict.set]
  | cons kv rest ih =>
      obtain ⟨k2, w⟩ := kv
      rw [List.map_cons, List.nodup_cons] at h
      by_cases h2 : k2 = k
      · subst h2
        rw [Dict.set, if_pos rfl, List.map_cons, List.nodup_cons]
        exact ⟨h.1, h.2⟩
      · rw [Dict.set, if_neg h2, List.map_cons, List.nodup_cons]
        refine ⟨?_, ih h.2⟩
        intro hmem
        obtain ⟨kv2, hm2, heq⟩ := List.mem_map.mp hmem
        rcases keys_set_subset rest k v kv2 hm2 with h3 | h3
        · rw [heq] at h3
          exact h2 h3
        · rw [heq] at h3
          exact h.1 h3

theorem aggregatePure_keys_subset (a : String) (accs : List (String × String))
    (inputs st : Dict) : ∀ (upd0 : Dict), ∀ kv ∈ aggregatePure a accs inputs st upd0,
    kv.1 ∈ upd0.map Prod.fst ∨ kv.1 ∈ accs.map Prod.fst := by
  induction accs with
  | nil => intro upd0 kv hm; exact Or.inl (List.mem_map_of_mem Prod.fst hm)
  | cons os rest ih =>
      intro upd0 kv hm
      obtain ⟨out, src⟩ := os
      rw [List.map_cons]
      cases hc : contributedValue inputs src with
      | some v =>
          rw [aggregatePure, hc] at hm
          rcases ih _ kv hm with h2 | h2
          · rcases List.mem_map.mp h2 with ⟨kv2, hm2, heq⟩
            rcases keys_set_subset upd0 out _ kv2 hm2 with h3 | h3
            · exact Or.inr (by rw [← heq, h3]; exact List.mem_cons_self _ _)
            · exact Or.inl (heq ▸ h3)
          · exact Or.inr (List.mem_cons_of_mem _ h2)
      | none =>
          rw [aggregatePure, hc] at hm
          rcases ih _ kv hm with h2 | h2
          · exact Or.inl h2
          · exact Or.inr (List.mem_cons_of_mem _ h2)

theorem aggregatePure_nodup_keys (a : String) (accs : List (String × String))
    (inputs st : Dict) : ∀ (upd0 : Dict), (upd0.map Prod.fst).Nodup →
    ((aggregatePure a accs inputs st upd0).map Prod.fst).Nodup := by
  induction accs with
  | nil => intro upd0 h; exact h
  | cons os rest ih =>
      intro upd0 h
      obtain ⟨out, src⟩ := os
      cases hc : contributedValue inputs src with
      | some v =>
          rw [aggregatePure, hc]
          exact ih _ (nodup_keys_set upd0 out _ h)
      | none =>
          rw [aggregatePure, hc]
          exact ih _ h

theorem hasDot_eq_false (s : String) (h : ('.' : Char) ∉ s.data) : hasDot s = false := by
  rw [hasDot]
  show s.data.elem '.' = false
  rw [List.elem_eq_mem]
  exact decide_eq_false h

theorem stateListAt_of_getD (st : Dict) (k : String) (L : List Value)
    (h : st.getD k (.vList []) = .vList L) : stateListAt st k = L := by
  rw [stateListAt, h]

theorem collectedValues_length_le (inputSeq : Nat → Dict) (src : String) :
    ∀ k, (collectedValues inputSeq src k).length ≤ k := by
  intro k
  induction k with
  | zero => exact Nat.le_refl 0
  | succ k ih =>
      rw [collectedValues, List.length_append]
      cases contributedValue (inputSeq k) src with
      | some v => simpa using Nat.add_le_add ih (Nat.le_refl 1)
      | none => simpa using Nat.le_succ_of_le ih

theorem collectedValues_length_eq (inputSeq : Nat → Dict) (src : String) :
    ∀ k, (∀ i, i < k → (contributedValue (inputSeq i) src).isSome = true) →
    (collectedValues inputSeq src k).length = k := by
  intro k
  induction k with
  | zero => intro _; rfl
  | succ k ih =>
      intro hall
      rw [collectedValues, List.length_append]
      cases hc : contributedValue (inputSeq k) src with
      | some v =>
          rw [ih fun i hi => hall i (Nat.lt_succ_of_lt hi)]
          rfl
      | none =>
          have := hall k (Nat.lt_succ_self k)
          rw [hc] at this
          exact absurd this (by simp)

/-! ## Helper lemmas: one continuation step of a controller run -/

theorem patchKey_dotfree (a k : String) (h : ('.' : Char) ∉ k.data) :
    patchKey a k = a ++ "." ++ k := by
  rw [patchKey, hasDot_eq_false k h]
  rfl

/-- One continuation invocation of a loop-mode router, together with the
orchestrator's application of its directives: the counter patch, the per
accumulator candidate lists, and the effect of the whole step on the router's
namespaced state keys. -/
theorem loop_continuation_step
    (a cn : String) (bodyStart elseStep : Value) (T : Int)
    (accs : List (String × String)) (bodyAgents : List String)
    (inputs st : Dict) (c : Int)
    (ha : a ≠ "") (hadot : ('.' : Char) ∉ a.data)
    (hcne : cn ≠ "") (hcndot : ('.' : Char) ∉ cn.data)
    (hbody : a ∉ bodyAgents)
    (hnd : (accs.map Prod.fst).Nodup)
    (haccs : ∀ os ∈ accs, os.1 ≠ "" ∧ os.1 ≠ cn ∧ ('.' : Char) ∉ os.1.data ∧
      os.1 ≠ "_clear_agent_outputs")
    (hcount : st.getD (a ++ "." ++ cn) (.vInt 0) = .vInt c)
    (hlt : c < T) :
    ∃ upd : Dict,
      conditionalRouterExecute inputs
        (mkLoopRouterConfig (.vInt T) bodyStart (some cn) accs bodyAgents elseStep)
        st (some a) =
        .ok [("_next_step_id", bodyStart), ("_update_state", .vDict upd),
             ("_clear_agent_outputs", .vList (bodyAgents.map Value.vStr))] ∧
      upd.get? cn = some (.vInt (c + 1)) ∧
      (∀ os ∈ accs, upd.get? os.1 =
        (match contributedValue inputs os.2 with
         | some v => some (.vList (stateListAt st (a ++ "." ++ os.1) ++ [v]))
         | none => none)) ∧
      (controllerStep a
          (mkLoopRouterConfig (.vInt T) bodyStart (some cn) accs bodyAgents elseStep)
          inputs st).get? (a ++ "." ++ cn) = some (.vInt (c + 1)) ∧
      (∀ os ∈ accs,
        (controllerStep a
            (mkLoopRouterConfig (.vInt T) bodyStart (some cn) accs bodyAgents elseStep)
            inputs st).get? (a ++ "." ++ os.1) =
          (match contributedValue inputs os.2 with
           | some v => some (.vList (stateListAt st (a ++ "." ++ os.1) ++ [v]))
           | none => st.get? (a ++ "." ++ os.1))) := by
  have houts : ∀ os ∈ accs, os.1 ≠ "" := fun os hm => (haccs os hm).1
  have hexec :
      conditionalRouterExecute inputs
        (mkLoopRouterConfig (.vInt T) bodyStart (some cn) accs bodyAgents elseStep)
        st (some a) =
      .ok [("_next_step_id", bodyStart),
           ("_update_state",
            .vDict ((aggregatePure a accs inputs st []).set cn (.vInt (c + 1)))),
           ("_clear_agent_outputs", .vList (bodyAgents.map Value.vStr))] := by
    rw [conditionalRouterExecute_loop inputs
      (mkLoopRouterConfig (.vInt T) bodyStart (some cn) accs bodyAgents elseStep)
      ⟨.vInt T, bodyStart, some cn, accs, bodyAgents⟩ st a cn T c rfl rfl rfl ha hcne
      hcount houts, if_pos hlt]
  set upd := (aggregatePure a accs inputs st []).set cn (.vInt (c + 1)) with hupd
  have hcnget : upd.get? cn = some (.vInt (c + 1)) := Dict.get?_set_self _ _ _
  have haccget : ∀ os ∈ accs, upd.get? os.1 =
      (match contributedValue inputs os.2 with
       | some v => some (.vList (stateListAt st (a ++ "." ++ os.1) ++ [v]))
       | none => none) := by
    intro os hos
    have hne : os.1 ≠ cn := (haccs os hos).2.1
    rw [hupd, Dict.get?_set_ne _ _ _ _ (Ne.symm hne)]
    obtain ⟨out, src⟩ := os
    rw [aggregatePure_get?_mem a accs inputs st [] out src hos hnd]
    cases contributedValue inputs src with
    | some v => rfl
    | none => rfl
  have hkeys_sub : ∀ kv ∈ upd, kv.1 = cn ∨ kv.1 ∈ accs.map Prod.fst := by
    intro kv hm
    rcases keys_set_subset _ cn (.vInt (c + 1)) kv hm with h2 | h2
    · exact Or.inl h2
    · obtain ⟨kv2, hm2, heq⟩ := List.mem_map.mp h2
      rcases aggregatePure_keys_subset a accs inputs st [] kv2 hm2 with h3 | h3
      · exact absurd h3 (List.not_mem_nil _)
      · exact Or.inr (heq ▸ h3)
  have hdotfree_key : ∀ k2, (k2 = cn ∨ k2 ∈ accs.map Prod.fst) → ('.' : Char) ∉ k2.data := by
    intro k2 hk2
    rcases hk2 with rfl | hk2
    · exact hcndot
    · obtain ⟨os, hos, heq⟩ := List.mem_map.mp hk2
      exact heq ▸ (haccs os hos).2.2.1
  have hnodup_upd : (upd.map Prod.fst).Nodup :=
    nodup_keys_set _ cn (.vInt (c + 1))
      (aggregatePure_nodup_keys a accs inputs st [] (by simp))
  have hnd_derived : (upd.map fun kv => patchKey a kv.1).Nodup := by
    have hinj : ∀ x ∈ upd.map Prod.fst, ∀ y ∈ upd.map Prod.fst,
        patchKey a x = patchKey a y → x = y := by
      intro x hx y hy hxy
      obtain ⟨kvx, hmx, heqx⟩ := List.mem_map.mp hx
      obtain ⟨kvy, hmy, heqy⟩ := List.mem_map.mp hy
      have hdx : ('.' : Char) ∉ x.data := hdotfree_key x (heqx ▸ hkeys_sub kvx hmx)
      have hdy : ('.' : Char) ∉ y.data := hdotfree_key y (heqy ▸ hkeys_sub kvy hmy)
      rw [patchKey_dotfree a x hdx, patchKey_dotfree a y hdy] at hxy
      exact dotKey_inj a x y hxy
    have : (upd.map fun kv => patchKey a kv.1) =
        (upd.map Prod.fst).map (patchKey a) := by
      rw [List.map_map]
      rfl
    rw [this]
    exact List.Nodup.map_on hinj hnodup_upd
  have hstep : controllerStep a
      (mkLoopRouterConfig (.vInt T) bodyStart (some cn) accs bodyAgents elseStep)
      inputs st =
      purgeClearedKeys bodyAgents
        (applyStatePatch a upd
          (st.set (a ++ "." ++ "_clear_agent_outputs")
            (.vList (bodyAgents.map Value.vStr)))) := by
    rw [controllerStep, hexec]
    show applyRouterDirectives a
      [("_next_step_id", bodyStart), ("_update_state", .vDict upd),
       ("_clear_agent_outputs", .vList (bodyAgents.map Value.vStr))] st = _
    rw [applyRouterDirectives]
    have hm : mergePlainOutputs a
        [("_next_step_id", bodyStart), ("_update_state", .vDict upd),
         ("_clear_agent_outputs", .vList (bodyAgents.map Value.vStr))] st =
        st.set (a ++ "." ++ "_clear_agent_outputs")
          (.vList (bodyAgents.map Value.vStr)) := rfl
    rw [hm]
    have hu : applyUpdateStateDirective a
        [("_next_step_id", bodyStart), ("_update_state", .vDict upd),
         ("_clear_agent_outputs", .vList (bodyAgents.map Value.vStr))]
        (st.set (a ++ "." ++ "_clear_agent_outputs")
          (.vList (bodyAgents.map Value.vStr))) =
        applyStatePatch a upd
          (st.set (a ++ "." ++ "_clear_agent_outputs")
            (.vList (bodyAgents.map Value.vStr))) := rfl
    rw [hu, applyClearOutputsDirective,
      clearedAgentIds_of_strs
        [("_next_step_id", bodyStart), ("_update_state", .vDict upd),
         ("_clear_agent_outputs", .vList (bodyAgents.map Value.vStr))] bodyAgents rfl]
  have hkeepCn : (bodyAgents.any fun b => strStartsWith (a ++ "." ++ cn) (b ++ ".")) = false := by
    rw [List.any_eq_false]
    intro b hb
    simp only [Bool.not_eq_true]
    exact not_strStartsWith_dotKey a cn b hadot hcndot (fun hba => hbody (hba ▸ hb))
  refine ⟨upd, hexec, hcnget, haccget, ?_, ?_⟩
  · rw [hstep, purgeClearedKeys_get?_kept bodyAgents _ _ hkeepCn]
    have := applyStatePatch_get?_mem a upd
      (st.set (a ++ "." ++ "_clear_agent_outputs") (.vList (bodyAgents.map Value.vStr)))
      cn (.vInt (c + 1)) (mem_set_self _ cn _) hnd_derived
    rwa [patchKey_dotfree a cn hcndot] at this
  · intro os hos
    obtain ⟨out, src⟩ := os
    have hdout : ('.' : Char) ∉ out.data := (haccs (out, src) hos).2.2.1
    have hkeepOut :
        (bodyAgents.any fun b => strStartsWith (a ++ "." ++ out) (b ++ ".")) = false := by
      rw [List.any_eq_false]
      intro b hb
      simp only [Bool.not_eq_true]
      exact not_strStartsWith_dotKey a out b hadot hdout (fun hba => hbody (hba ▸ hb))
    rw [hstep, purgeClearedKeys_get?_kept bodyAgents _ _ hkeepOut]
    have hget := haccget (out, src) hos
    cases hc : contributedValue inputs src with
    | some v =>
        rw [hc] at hget
        have hmem := get?_eq_some_mem upd out _ hget
        have := applyStatePatch_get?_mem a upd
          (st.set (a ++ "." ++ "_clear_agent_outputs") (.vList (bodyAgents.map Value.vStr)))
          out _ hmem hnd_derived
        rwa [patchKey_dotfree a out hdout] at this
    | none =>
        rw [hc] at hget
        have hframe := applyStatePatch_get?_not_mem a upd
          (st.set (a ++ "." ++ "_clear_agent_outputs") (.vList (bodyAgents.map Value.vStr)))
          (a ++ "." ++ out) ?hno
        case hno =>
          intro kv hm heq
          have hdk : ('.' : Char) ∉ kv.1.data := hdotfree_key kv.1 (hkeys_sub kv hm)
          rw [patchKey_dotfree a kv.1 hdk] at heq
          have : kv.1 = out := dotKey_inj a kv.1 out heq
          exact get?_eq_none_keys upd out hget kv hm this
        rw [hframe, Dict.get?_set_ne]
        intro hkeyeq
        have : "_clear_agent_outputs" = out := dotKey_inj a _ _ hkeyeq
        exact (haccs (out, src) hos).2.2.2 this.symm

/-- The loop-state invariant of a run of the controller: before the `k`-th
invocation (0-based, `k ≤ N`) the namespaced counter reads `k` and each
accumulator key holds exactly the values collected over the first `k`
invocations. -/
theorem controller_invariant
    (a cn : String) (bodyStart elseStep : Value) (N : Nat)
    (accs : List (String × String)) (bodyAgents : List String)
    (inputSeq : Nat → Dict) (init : Dict)
    (ha : a ≠ "") (hadot : ('.' : Char) ∉ a.data)
    (hcne : cn ≠ "") (hcndot : ('.' : Char) ∉ cn.data)
    (hbody : a ∉ bodyAgents)
    (hnd : (accs.map Prod.fst).Nodup)
    (haccs : ∀ os ∈ accs, os.1 ≠ "" ∧ os.1 ≠ cn ∧ ('.' : Char) ∉ os.1.data ∧
      os.1 ≠ "_clear_agent_outputs")
    (hinitc : init.get? (a ++ "." ++ cn) = none)
    (hinita : ∀ os ∈ accs, init.get? (a ++ "." ++ os.1) = none) :
    ∀ k, k ≤ N →
      (controllerState a
          (mkLoopRouterConfig (.vInt (N : Int)) bodyStart (some cn) accs bodyAgents elseStep)
          inputSeq init k).getD (a ++ "." ++ cn) (.vInt 0) = .vInt (k : Int) ∧
      (∀ os ∈ accs,
        (controllerState a
            (mkLoopRouterConfig (.vInt (N : Int)) bodyStart (some cn) accs bodyAgents elseStep)
            inputSeq init k).getD (a ++ "." ++ os.1) (.vList []) =
          .vList (collectedValues inputSeq os.2 k)) := by
  intro k
  induction k with
  | zero =>
      intro _
      constructor
      · rw [controllerState, Dict.getD, hinitc]
        rfl
      · intro os hos
        rw [controllerState, Dict.getD, hinita os hos]
        rfl
  | succ k ih =>
      intro hk
      have hk1 : k ≤ N := Nat.le_of_succ_le hk
      have hkN : k < N := hk
      obtain ⟨ihc, iha⟩ := ih hk1
      have hltInt : (k : Int) < (N : Int) := by exact_mod_cast hkN
      obtain ⟨upd, hexec, hcnget, haccget, hstepc, hstepa⟩ :=
        loop_continuation_step a cn bodyStart elseStep (N : Int) accs bodyAgents
          (inputSeq k)
          (controllerState a
            (mkLoopRouterConfig (.vInt (N : Int)) bodyStart (some cn) accs bodyAgents elseStep)
            inputSeq init k)
          (k : Int) ha hadot hcne hcndot hbody hnd haccs ihc hltInt
      constructor
      · rw [controllerState, Dict.getD, hstepc]
        have : ((k : Int) + 1) = ((k + 1 : Nat) : Int) := by push_cast; ring
        rw [this]
        rfl
      · intro os hos
        rw [controllerState, Dict.getD, hstepa os hos]
        cases hc : contributedValue (inputSeq k) os.2 with
        | some v =>
            rw [stateListAt_of_getD _ _ _ (iha os hos)]
            simp only [collectedValues, hc]
            rfl
        | none =>
            have := iha os hos
            rw [Dict.getD] at this
            rw [this]
            simp only [collectedValues, hc, List.append_nil]

/-! ## Claim C1 (corrected) -/

/-- Claim C1, amended: for a loop-mode router with literal total iterations
`N`, well-formed dot-free names, the router not among its own loop-body
agents, and no pre-existing counter or accumulator entries in state, a run of
the controller yields exactly `N` continuation directives — the `k`-th
continuation (0-based `k`) reads counter value `k` from the namespaced counter
key (defaulting to 0 when absent) and patches it to `k + 1`, incrementing by
exactly 1 — followed by exactly one termination directive; each accumulator
list at termination has length at most `N + 1` (one element may be appended on
every invocation, including the terminating one), and exactly `N + 1` if its
feeding input was present and non-empty on every invocation. -/
theorem claim_C1_loop_run
    (a cn : String) (bodyStart elseStep : Value) (N : Nat)
    (accs : List (String × String)) (bodyAgents : List String)
    (inputSeq : Nat → Dict) (init : Dict)
    (ha : a ≠ "") (hadot : ('.' : Char) ∉ a.data)
    (hcne : cn ≠ "") (hcndot : ('.' : Char) ∉ cn.data)
    (hbody : a ∉ bodyAgents)
    (hnd : (accs.map Prod.fst).Nodup)
    (haccs : ∀ os ∈ accs, os.1 ≠ "" ∧ os.1 ≠ cn ∧ ('.' : Char) ∉ os.1.data ∧
      os.1 ≠ "_next_step_id" ∧ os.1 ≠ "_update_state" ∧ os.1 ≠ "_clear_agent_outputs")
    (hinitc : init.get? (a ++ "." ++ cn) = none)
    (hinita : ∀ os ∈ accs, init.get? (a ++ "." ++ os.1) = none) :
    (∀ k, k ≤ N →
      (controllerState a
          (mkLoopRouterConfig (.vInt (N : Int)) bodyStart (some cn) accs bodyAgents elseStep)
          inputSeq init k).getD (a ++ "." ++ cn) (.vInt 0) = .vInt (k : Int)) ∧
    (∀ k, k < N → ∃ upd : Dict,
      conditionalRouterExecute (inputSeq k)
        (mkLoopRouterConfig (.vInt (N : Int)) bodyStart (some cn) accs bodyAgents elseStep)
        (controllerState a
          (mkLoopRouterConfig (.vInt (N : Int)) bodyStart (some cn) accs bodyAgents elseStep)
          inputSeq init k) (some a) =
        .ok [("_next_step_id", bodyStart), ("_update_state", .vDict upd),
             ("_clear_agent_outputs", .vList (bodyAgents.map Value.vStr))] ∧
      upd.get? cn = some (.vInt ((k : Int) + 1)) ∧
      (∀ os ∈ accs, upd.get? os.1 =
        (match contributedValue (inputSeq k) os.2 with
         | some _ => some (.vList (collectedValues inputSeq os.2 (k + 1)))
         | none => none))) ∧
    (∃ term : Dict,
      conditionalRouterExecute (inputSeq N)
        (mkLoopRouterConfig (.vInt (N : Int)) bodyStart (some cn) accs bodyAgents elseStep)
        (controllerState a
          (mkLoopRouterConfig (.vInt (N : Int)) bodyStart (some cn) accs bodyAgents elseStep)
          inputSeq init N) (some a) = .ok term ∧
      term.get? "_next_step_id" = some elseStep ∧
      term.get? "_update_state" = none ∧
      term.get? "_clear_agent_outputs" = none ∧
      (∀ os ∈ accs,
        term.get? os.1 = some (.vList (collectedValues inputSeq os.2 (N + 1))) ∧
        (collectedValues inputSeq os.2 (N + 1)).length ≤ N + 1 ∧
        ((∀ i, i ≤ N → (contributedValue (inputSeq i) os.2).isSome = true) →
          (collectedValues inputSeq os.2 (N + 1)).length = N + 1))) := by
  have haccs4 : ∀ os ∈ accs, os.1 ≠ "" ∧ os.1 ≠ cn ∧ ('.' : Char) ∉ os.1.data ∧
      os.1 ≠ "_clear_agent_outputs" := fun os hm =>
    ⟨(haccs os hm).1, (haccs os hm).2.1, (haccs os hm).2.2.1, (haccs os hm).2.2.2.2.2⟩
  have houts : ∀ os ∈ accs, os.1 ≠ "" := fun os hm => (haccs os hm).1
  have hinv := controller_invariant a cn bodyStart elseStep N accs bodyAgents inputSeq init
    ha hadot hcne hcndot hbody hnd haccs4 hinitc hinita
  refine ⟨fun k hk => (hinv k hk).1, ?_, ?_⟩
  · intro k hkN
    obtain ⟨ihc, iha⟩ := hinv k (Nat.le_of_lt hkN)
    have hltInt : (k : Int) < (N : Int) := by exact_mod_cast hkN
    obtain ⟨upd, hexec, hcnget, haccget, _, _⟩ :=
      loop_continuation_step a cn bodyStart elseStep (N : Int) accs bodyAgents
        (inputSeq k)
        (controllerState a
          (mkLoopRouterConfig (.vInt (N : Int)) bodyStart (some cn) accs bodyAgents elseStep)
          inputSeq init k)
        (k : Int) ha hadot hcne hcndot hbody hnd haccs4 ihc hltInt
    refine ⟨upd, hexec, hcnget, ?_⟩
    intro os hos
    rw [haccget os hos]
    cases hc : contributedValue (inputSeq k) os.2 with
    | some v =>
        rw [stateListAt_of_getD _ _ _ (iha os hos)]
        simp only [collectedValues, hc]
    | none => rfl
  · obtain ⟨ihc, iha⟩ := hinv N (Nat.le_refl N)
    have hnotlt : ¬ ((N : Int) < (N : Int)) := lt_irrefl _
    have hexec :=
      conditionalRouterExecute_loop (inputSeq N)
        (mkLoopRouterConfig (.vInt (N : Int)) bodyStart (some cn) accs bodyAgents elseStep)
        ⟨.vInt (N : Int), bodyStart, some cn, accs, bodyAgents⟩
        (controllerState a
          (mkLoopRouterConfig (.vInt (N : Int)) bodyStart (some cn) accs bodyAgents elseStep)
          inputSeq init N)
        a cn (N : Int) (N : Int) rfl rfl rfl ha hcne ihc houts
    rw [if_neg hnotlt] at hexec
    have hnm1 : "_next_step_id" ∉ accs.map Prod.fst := by
      intro hmem
      obtain ⟨os, hos, heq⟩ := List.mem_map.mp hmem
      exact (haccs os hos).2.2.2.1 heq
    have hnm2 : "_update_state" ∉ accs.map Prod.fst := by
      intro hmem
      obtain ⟨os, hos, heq⟩ := List.mem_map.mp hmem
      exact (haccs os hos).2.2.2.2.1 heq
    have hnm3 : "_clear_agent_outputs" ∉ accs.map Prod.fst := by
      intro hmem
      obtain ⟨os, hos, heq⟩ := List.mem_map.mp hmem
      exact (haccs os hos).2.2.2.2.2 heq
    refine ⟨_, hexec, ?_, ?_, ?_, ?_⟩
    · rw [terminationOutputs_get?_not_mem a accs _ _ _ _ hnm1]
      rfl
    · rw [terminationOutputs_get?_not_mem a accs _ _ _ _ hnm2]
      rfl
    · rw [terminationOutputs_get?_not_mem a accs _ _ _ _ hnm3]
      rfl
    · intro os hos
      obtain ⟨out, src⟩ := os
      refine ⟨?_, collectedValues_length_le inputSeq src (N + 1), ?_⟩
      · rw [terminationOutputs_get?_mem a ha accs _ _ _ out src hos hnd houts,
          aggregatePure_get?_mem a accs (inputSeq N) _ [] out src hos hnd]
        cases hc : contributedValue (inputSeq N) src with
        | some v =>
            rw [stateListAt_of_getD _ _ _ (iha (out, src) hos)]
            simp only [collectedValues, hc]
        | none =>
            have := iha (out, src) hos
            rw [this]
            simp only [collectedValues, hc, List.append_nil]
            rfl
      · intro hall
        exact collectedValues_length_eq inputSeq src (N + 1)
          (fun i hi => hall i (Nat.lt_succ_iff.mp hi))

/-- Witness for claim C1 at a concrete run: `N = 2`, inputs `"a"`, `"b"`, `"c"`
on the three invocations; the terminating call carries no patch and the
accumulator list `["a", "b", "c"]`. -/
theorem claim_C1_loop_run_witness :
    ∃ term : Dict,
      conditionalRouterExecute
        ((fun k => [("item", Value.vStr (if k = 0 then "a" else if k = 1 then "b" else "c"))]) 2)
        (mkLoopRouterConfig (.vInt ((2 : Nat) : Int)) (.vStr "g") (some "c") [("all", "item")]
          ["g"] (.vStr "done"))
        (controllerState "r"
          (mkLoopRouterConfig (.vInt ((2 : Nat) : Int)) (.vStr "g") (some "c") [("all", "item")]
            ["g"] (.vStr "done"))
          (fun k => [("item", Value.vStr (if k = 0 then "a" else if k = 1 then "b" else "c"))])
          [] 2)
        (some "r") = .ok term ∧
      term.get? "_update_state" = none ∧
      term.get? "all" = some (.vList [.vStr "a", .vStr "b", .vStr "c"]) := by
  obtain ⟨term, hexec, h1, h2, h3, h4⟩ :=
    (claim_C1_loop_run "r" "c" (.vStr "g") (.vStr "done") 2 [("all", "item")] ["g"]
      (fun k => [("item", Value.vStr (if k = 0 then "a" else if k = 1 then "b" else "c"))]) []
      (by decide) (by decide) (by decide) (by decide) (by decide) (by decide)
      (by decide) (by decide) (by decide)).2.2
  refine ⟨term, hexec, h2, ?_⟩
  rw [(h4 ("all", "item") (by decide)).1]
  rfl

/-- Counterexample for claim C1 as stated: with `N = 1` and the feeding input
present and non-empty on both invocations, the accumulator list at termination
is `["a", "b"]` of length 2 — exceeding the claimed bound `N = 1`, because the
terminating call also aggregates. -/
theorem claim_C1_counterexample :
    conditionalRouterExecute
      ((fun k => [("item", Value.vStr (if k = 0 then "a" else "b"))]) 1)
      (mkLoopRouterConfig (.vInt 1) (.vStr "g") (some "c") [("out", "item")] ["g"]
        (.vStr "done"))
      (controllerState "r"
        (mkLoopRouterConfig (.vInt 1) (.vStr "g") (some "c") [("out", "item")] ["g"]
          (.vStr "done"))
        (fun k => [("item", Value.vStr (if k = 0 then "a" else "b"))]) [] 1)
      (some "r") =
      .ok [("_next_step_id", .vStr "done"), ("out", .vList [.vStr "a", .vStr "b"])] ∧
    ¬ ([Value.vStr "a", Value.vStr "b"].length ≤ 1) := by
  decide

end APC
